import Mathlib

/-!
Verification of the Diff-Aware Comment Placement Engine of the
gitlab-ai-mr-reviewer repository against its specification.

The definitions below are a shallow embedding of the TypeScript sources:
* `src/utils/enhanced-diff-parser.ts` (`parseDiffPatch`, `findCorrectLineNumbers`)
* `src/services/discussion-manager.ts` (`isSimilarCommentExists`, `calculateSimilarity`)
* `src/utils/diff-line-calculator.ts` (`calculateLinePosition`, `calculateLinePositionsForIssues`)
* `src/review/three-phase-reviewer.ts` (`parseAIResponse`, `runThreePhaseReview`)
* `src/review/cursor-agent.ts` (output cleaning / truncation repair / duplicate filtering
  inside `runCursorAgentReview`, and `fixIncompleteJSON`)
* `src/index.ts` (`main`'s three-phase-with-fallback review selection)

JavaScript strings are modelled as Lean `String`s over their characters
(all fixture data is ASCII, where UTF-16 code units and code points agree);
JavaScript numbers appearing as line counters are modelled as `Nat`/`Int`
(they are integers in every reachable state), and the similarity scores as `ℚ`.
`process.exit(n)` and thrown exceptions are modelled with `Except`.
-/

set_option maxRecDepth 10000

namespace MRReviewer

/-- The `{` character (ASCII 123), named to keep brace characters out of literals. -/
def lbrace : Char := Char.ofNat 123

/-- The `}` character (ASCII 125). -/
def rbrace : Char := Char.ofNat 125

/-- JavaScript `\s` for the ASCII range: space, tab, newline, carriage return,
vertical tab and form feed (the characters that actually occur in diff/JSON text). -/
def isJsWs (c : Char) : Bool :=
  c = ' ' || c = '\t' || c = '\n' || c = '\x0d' || c = '\x0b' || c = '\x0c'

/-- Characters the resolver's normalizer treats as punctuation:
the set `[;,(){}=]` of `enhanced-diff-parser.ts` line 191. -/
def isPunctChar (c : Char) : Bool :=
  c = ';' || c = ',' || c = '(' || c = ')' || c = lbrace || c = rbrace || c = '='

/-- `String.prototype.trim`: drop leading and trailing whitespace. -/
def trimChars (cs : List Char) : List Char :=
  ((cs.dropWhile isJsWs).reverse.dropWhile isJsWs).reverse

/-- First stage of `.replace(/\s+/g, ' ')`: collapse every whitespace run to a
single space.  The flag records whether the previous character was whitespace. -/
def collapseWsAux (prevWs : Bool) : List Char → List Char
  | [] => []
  | c :: rest =>
    if isJsWs c then
      if prevWs then collapseWsAux true rest else ' ' :: collapseWsAux true rest
    else c :: collapseWsAux false rest

/-- `.replace(/\s+/g, ' ')`. -/
def collapseWs (cs : List Char) : List Char := collapseWsAux false cs

/-- `.replace(/\s*([;,\(\)\{\}=])\s*/g, '$1')`: a punctuation character absorbs
the whitespace around it.  A whitespace run not followed by punctuation is kept
(character by character, as the regex engine advances one position on failure).
Every step shortens the list, so fuel equal to the list length never runs
out; the fuel only makes the recursion structural. -/
def rmPunctSpaces (fuel : Nat) : List Char → List Char
  | [] => []
  | c :: rest =>
    match fuel with
    | 0 => c :: rest
    | Nat.succ fuel2 =>
      if isPunctChar c then c :: rmPunctSpaces fuel2 (rest.dropWhile isJsWs)
      else if isJsWs c then
        match rest.dropWhile isJsWs with
        | p :: tail =>
          if isPunctChar p then p :: rmPunctSpaces fuel2 (tail.dropWhile isJsWs)
          else c :: rmPunctSpaces fuel2 rest
        | [] => c :: rmPunctSpaces fuel2 rest
      else c :: rmPunctSpaces fuel2 rest

/-- `normalizeCode` from `findCorrectLineNumbers` (enhanced-diff-parser.ts 187-192):
trim, collapse whitespace runs, then strip spacing around punctuation. -/
def normalizeCode (code : String) : String :=
  String.mk (rmPunctSpaces (collapseWs (trimChars code.data)).length
    (collapseWs (trimChars code.data)))

/-- `pat.isPrefixOf hay` at some position of `hay`: JavaScript
`hay.includes(pat)` over the character lists. -/
def subOccurs (hay pat : List Char) : Bool :=
  match hay with
  | [] => pat.isEmpty
  | _ :: rest => pat.isPrefixOf hay || subOccurs rest pat

/-- JavaScript `s.includes(sub)`. -/
def strContains (s sub : String) : Bool := subOccurs s.data sub.data

/-- First index at or after `i` where `pat` occurs in `hay` (`hay.indexOf(pat, i)`). -/
def findSubAux (hay pat : List Char) (i : Nat) : Option Nat :=
  match hay with
  | [] => if pat.isEmpty then some i else none
  | _ :: rest => if pat.isPrefixOf hay then some i else findSubAux rest pat (i + 1)

/-- `hay.indexOf(pat)`, as `Option`. -/
def findSub (hay pat : List Char) : Option Nat := findSubAux hay pat 0

/-- Last index where `pat` occurs in `hay` (`hay.lastIndexOf(pat)`), as `Option`. -/
def findLastSubAux (hay pat : List Char) (i : Nat) (acc : Option Nat) : Option Nat :=
  match hay with
  | [] => if pat.isEmpty then some i else acc
  | _ :: rest =>
    if pat.isPrefixOf hay then findLastSubAux rest pat (i + 1) (some i)
    else findLastSubAux rest pat (i + 1) acc

/-- `hay.lastIndexOf(pat)`, as `Option`. -/
def findLastSub (hay pat : List Char) : Option Nat := findLastSubAux hay pat 0 none

/-- All indices where `pat` occurs in `hay`, in increasing order. -/
def allSubPositionsAux (hay pat : List Char) (i : Nat) : List Nat :=
  match hay with
  | [] => if pat.isEmpty then [i] else []
  | _ :: rest =>
    if pat.isPrefixOf hay then i :: allSubPositionsAux rest pat (i + 1)
    else allSubPositionsAux rest pat (i + 1)

/-- All indices where `pat` occurs in `hay`. -/
def allSubPositions (hay pat : List Char) : List Nat := allSubPositionsAux hay pat 0

/-- Digits prefix of a character list, with the rest. -/
def spanDigits (cs : List Char) : List Char × List Char :=
  (cs.takeWhile Char.isDigit, cs.dropWhile Char.isDigit)

/-- `parseInt` on a (non-empty) digit string. -/
def digitsToNat (ds : List Char) : Nat :=
  ds.foldl (fun acc c => acc * 10 + (c.toNat - 48)) 0

/-- `String.jsStartsWith prototype`, computed on the underlying character
lists so that concrete instances reduce in the kernel. -/
def jsStartsWith (s pre : String) : Bool := pre.data.isPrefixOf s.data

/-- `String.prototype.endsWith`, likewise. -/
def jsEndsWith (s suf : String) : Bool := suf.data.isSuffixOf s.data

/-- `text.split('\n')` (also `splitLines String`): both keep empty
segments at separators and edges. -/
def splitLinesAux (acc : List Char) : List Char → List String
  | [] => [String.mk acc.reverse]
  | c :: rest =>
    if c = '\n' then String.mk acc.reverse :: splitLinesAux [] rest
    else splitLinesAux (c :: acc) rest

/-- Split a string into its newline-separated lines. -/
def splitLines (s : String) : List String := splitLinesAux [] s.data

/-! ## Data model of `enhanced-diff-parser.ts` -/

/-- `DiffLine.type`. -/
inductive LineType where
  | added
  | removed
  | context
deriving DecidableEq, Repr

/-- `DiffLine` (enhanced-diff-parser.ts 8-14). -/
structure DiffLine where
  type : LineType
  content : String
  old_line : Option Nat
  new_line : Option Nat
  diff_line_in_patch : Nat
deriving DecidableEq, Repr

/-- `DiffHunk` (enhanced-diff-parser.ts 16-23). -/
structure DiffHunk where
  oldStart : Nat
  oldCount : Nat
  newStart : Nat
  newCount : Nat
  lines : List DiffLine
  headerLine : String
deriving DecidableEq, Repr

/-- `FileDiff` (enhanced-diff-parser.ts 25-31). -/
structure FileDiff where
  oldPath : String
  newPath : String
  isNewFile : Bool
  isDeletedFile : Bool
  hunks : List DiffHunk
deriving DecidableEq, Repr

/-- `Map.set`: replace the value at an existing key in place, else append. -/
def mapSet (m : List (String × FileDiff)) (k : String) (v : FileDiff) :
    List (String × FileDiff) :=
  match m with
  | [] => [(k, v)]
  | (k', v') :: rest => if k' = k then (k, v) :: rest else (k', v') :: mapSet rest k v

/-- `Map.get`. -/
def mapGet (m : List (String × FileDiff)) (k : String) : Option FileDiff :=
  match m with
  | [] => none
  | (k', v') :: rest => if k' = k then some v' else mapGet rest k

/-- Match of `/diff --git a\/(.*) b\/(.*)/` against a line: the first occurrence
of the literal `diff --git a/`, then a greedy `(.*)` up to the *last* ` b/`,
then the rest of the line.  Returns `(oldPath, newPath)`. -/
def matchDiffGit (line : String) : Option (String × String) :=
  match findSub line.data "diff --git a/".data with
  | none => none
  | some i =>
    let rest := line.data.drop (i + 13)
    match findLastSub rest " b/".data with
    | none => none
    | some j => some (String.mk (rest.take j), String.mk (rest.drop (j + 3)))

/-- Try to match `-(\d+)(?:,(\d+))?` style `num(,num)?` at the start of `cs`,
returning the two numbers and the remaining characters.  The optional count is
only consumed when a comma is immediately followed by a digit (otherwise the
regex backtracks to the empty optional group). -/
def matchNumPair (cs : List Char) : Option (Nat × Option Nat × List Char) :=
  let (ds, r1) := spanDigits cs
  if ds.isEmpty then none
  else
    match r1 with
    | ',' :: r2 =>
      let (ds2, r3) := spanDigits r2
      if ds2.isEmpty then some (digitsToNat ds, none, r1)
      else some (digitsToNat ds, some (digitsToNat ds2), r3)
    | _ => some (digitsToNat ds, none, r1)

/-- Match of `/@@ -(\d+)(?:,(\d+))? \+(\d+)(?:,(\d+))? @@/` anchored at the
start of `cs`. -/
def matchHunkHeaderAt (cs : List Char) : Option (Nat × Nat × Nat × Nat) :=
  match cs with
  | '@' :: '@' :: ' ' :: '-' :: r0 =>
    match matchNumPair r0 with
    | none => none
    | some (oldStart, oldCnt, r1) =>
      match r1 with
      | ' ' :: '+' :: r2 =>
        match matchNumPair r2 with
        | none => none
        | some (newStart, newCnt, r3) =>
          match r3 with
          | ' ' :: '@' :: '@' :: _ =>
            some (oldStart, oldCnt.getD 1, newStart, newCnt.getD 1)
          | _ => none
      | _ => none
  | _ => none

/-- The (unanchored) hunk-header regex: first position where it matches. -/
def matchHunkHeader (cs : List Char) : Option (Nat × Nat × Nat × Nat) :=
  match cs with
  | [] => none
  | _ :: rest =>
    match matchHunkHeaderAt cs with
    | some r => some r
    | none => matchHunkHeader rest

/-- Parser state of `parseDiffPatch`.  JavaScript mutates the current file and
hunk objects by reference: a hunk that was pushed into `currentFile.hunks` while
remaining `currentHunk` (an `@@` line whose header fails the regex) keeps
receiving appended lines.  `pendingPushes` counts such aliased pushes of the
current hunk; they are materialised with the hunk's final value once the hunk is
retired, which is exactly what the aliasing produces.  Similarly, an already
`Map.set` file keeps growing, so files are written to the map with their final
value when they are retired (`savedness` is monotone because hunk lists only
grow, making intermediate saves redundant). -/
structure ParseState where
  files : List (String × FileDiff)
  currentFile : Option FileDiff
  currentHunk : Option DiffHunk
  pendingPushes : Nat
  oldLine : Nat
  newLine : Nat
deriving Repr

/-- `currentFile?.hunks.push(currentHunk)` (one more alias of the live hunk). -/
def pushCurrentHunk (st : ParseState) : ParseState :=
  match st.currentHunk, st.currentFile with
  | some _, some _ => { st with pendingPushes := st.pendingPushes + 1 }
  | _, _ => st

/-- Materialise the pending aliased pushes of `currentHunk` into
`currentFile.hunks` (used once the hunk can no longer change). -/
def materializeHunk (st : ParseState) : ParseState :=
  match st.currentHunk, st.currentFile with
  | some h, some f =>
    { st with
      currentFile := some { f with hunks := f.hunks ++ List.replicate st.pendingPushes h }
      pendingPushes := 0 }
  | _, _ => st

/-- `files.set(currentFile.newPath, currentFile)` guarded by
`currentFile.hunks.length > 0`. -/
def saveCurrentFile (st : ParseState) : ParseState :=
  match st.currentFile with
  | some f => if f.hunks.isEmpty then st else { st with files := mapSet st.files f.newPath f }
  | none => st

/-- Append a parsed content line to the current hunk. -/
def appendLine (st : ParseState) (l : DiffLine) : ParseState :=
  match st.currentHunk with
  | some h => { st with currentHunk := some { h with lines := h.lines ++ [l] } }
  | none => st

/-- The `diff --git ` branch of the loop (lines 51-74): push the current hunk
to the previous file and clear it (both only when a current file exists). -/
def flushHunkForFileHeader (st : ParseState) : ParseState :=
  match st.currentHunk, st.currentFile with
  | some _, some _ => { (materializeHunk (pushCurrentHunk st)) with currentHunk := none }
  | _, _ => st

/-- Handle a `diff --git ` line: flush the hunk, save the previous file, and
start a new file when the header regex matches. -/
def stepFileHeader (st : ParseState) (line : String) : ParseState :=
  let st := flushHunkForFileHeader st
  let st := saveCurrentFile st
  match matchDiffGit line with
  | some (oldPath, newPath) =>
    { st with currentFile := some ⟨oldPath, newPath, false, false, []⟩ }
  | none => st

/-- Handle an `@@` line (lines 89-114): push the current hunk, and when the
header regex matches start a new hunk and reseed the counters. -/
def stepHunkHeader (st : ParseState) (line : String) : ParseState :=
  let st := pushCurrentHunk st
  match matchHunkHeader line.data with
  | some (oldStart, oldCount, newStart, newCount) =>
    { materializeHunk st with
      currentHunk := some ⟨oldStart, oldCount, newStart, newCount, [], line⟩
      oldLine := oldStart
      newLine := newStart }
  | none => st

/-- Handle a hunk content line (lines 117-151): dispatch on the leading
character, append the typed line and advance the counters. -/
def stepContent (st : ParseState) (patchLineNumber : Nat) (line : String) : ParseState :=
  match st.currentHunk with
  | none => st
  | some _ =>
    if jsStartsWith line "+" then
      { appendLine st ⟨.added, line.drop 1, none, some st.newLine, patchLineNumber⟩ with
          oldLine := st.oldLine, newLine := st.newLine + 1 }
    else if jsStartsWith line "-" then
      { appendLine st ⟨.removed, line.drop 1, some st.oldLine, none, patchLineNumber⟩ with
          oldLine := st.oldLine + 1, newLine := st.newLine }
    else if jsStartsWith line " " then
      { appendLine st ⟨.context, line.drop 1, some st.oldLine, some st.newLine, patchLineNumber⟩ with
          oldLine := st.oldLine + 1, newLine := st.newLine + 1 }
    else st

/-- One iteration of the `parseDiffPatch` loop on line `line` with 1-based patch
line number `patchLineNumber`. -/
def parseStep (st : ParseState) (patchLineNumber : Nat) (line : String) : ParseState :=
  if jsStartsWith line "diff --git " then stepFileHeader st line
  else if jsStartsWith line "new file mode" then
    match st.currentFile with
    | some f => { st with currentFile := some { f with isNewFile := true } }
    | none => st
  else if jsStartsWith line "deleted file mode" then
    match st.currentFile with
    | some f => { st with currentFile := some { f with isDeletedFile := true } }
    | none => st
  else if jsStartsWith line "@@" then stepHunkHeader st line
  else stepContent st patchLineNumber line

/-- The loop of `parseDiffPatch` over the split lines (the `Nat` argument is
the 0-based index of the previous line: `patchLineNumber = i + 1`). -/
def parseLoop : List String → ParseState → Nat → ParseState
  | [], st, _ => st
  | line :: rest, st, i => parseLoop rest (parseStep st (i + 1) line) (i + 1)

/-- End of `parseDiffPatch`: add the last hunk and file. -/
def parseFinish (st : ParseState) : ParseState :=
  let st := materializeHunk (pushCurrentHunk st)
  saveCurrentFile st

/-- `parseDiffPatch` (enhanced-diff-parser.ts 36-163). -/
def parseDiffPatch (diffContent : String) : List (String × FileDiff) :=
  (parseFinish (parseLoop (splitLines diffContent) ⟨[], none, none, 0, 0, 0⟩ 0)).files

/-! ## `findCorrectLineNumbers` (enhanced-diff-parser.ts 168-288) -/

/-- Confidence tier.  `fallback` is the spec's `Unresolved`. -/
inductive Confidence where
  | exact
  | fuzzy
  | fallback
deriving DecidableEq, Repr

/-- Result record of `findCorrectLineNumbers`. -/
structure ResolveResult where
  old_line : Option Nat
  new_line : Nat
  confidence : Confidence
deriving DecidableEq, Repr

/-- The `bestMatch` accumulator (its `confidence` field is always `'fuzzy'`). -/
structure FuzzyBest where
  old_line : Option Nat
  new_line : Nat
deriving DecidableEq, Repr

/-- `genericPatterns` (enhanced-diff-parser.ts 203).  Brace strings are written
with `lbrace`/`rbrace` (`{`, `}`, `};`). -/
def genericPatterns : List String :=
  [String.mk [rbrace], String.mk [lbrace], String.mk [rbrace, ';'], "",
   "return;", "break;", "continue;"]

/-- Count of positions with equal characters (the loop at lines 261-265,
running to the length of the shorter string). -/
def countMatchingChars : List Char → List Char → Nat
  | a :: as, b :: bs => (if a = b then 1 else 0) + countMatchingChars as bs
  | _, _ => 0

/-- Methods 1 and 2 of lines 232-257 (substring containment in either
direction) applied to the `(bestMatch, bestMatchScore)` accumulator. -/
def containUpdate (targetCode lineCode : String) (l : DiffLine)
    (best : Option FuzzyBest) (bestScore : ℚ) : Option FuzzyBest × ℚ :=
  -- Method 1: target is a substring of line
  let st1 : Option FuzzyBest × ℚ :=
    if 15 ≤ targetCode.length ∧ strContains lineCode targetCode then
      let score : ℚ := (targetCode.length : ℚ) / (lineCode.length : ℚ)
      if bestScore < score then (some ⟨l.old_line, l.new_line.getD 0⟩, score)
      else (best, bestScore)
    else (best, bestScore)
  -- Method 2: line is a substring of target
  if 15 ≤ lineCode.length ∧ strContains targetCode lineCode then
    let score : ℚ := (lineCode.length : ℚ) / (targetCode.length : ℚ)
    if st1.2 < score then (some ⟨l.old_line, l.new_line.getD 0⟩, score)
    else st1
  else st1

/-- The three fuzzy-match methods of lines 232-275 applied to one candidate
line.  Each method overwrites the accumulator only on a strictly greater score
(`score > bestMatchScore`); method 3 additionally requires
`similarity > 0.6`. -/
def methodUpdate (targetCode lineCode : String) (l : DiffLine)
    (best : Option FuzzyBest) (bestScore : ℚ) : Option FuzzyBest × ℚ :=
  let st2 := containUpdate targetCode lineCode l best bestScore
  -- Method 3: positional character overlap
  if 20 ≤ targetCode.length ∧ 20 ≤ lineCode.length then
    let similarity : ℚ :=
      (countMatchingChars targetCode.data lineCode.data : ℚ) /
        (max targetCode.length lineCode.length : ℚ)
    if (3 : ℚ)/5 < similarity ∧ st2.2 < similarity then
      (some ⟨l.old_line, l.new_line.getD 0⟩, similarity)
    else st2
  else st2

/-- The scan of lines 213-277: iterate the (flattened, in hunk-then-line order)
diff lines, returning on the first exact match and otherwise accumulating the
best fuzzy candidate.  `line.new_line!` (a TypeScript non-null assertion on a
non-removed line) is modelled as `Option.getD 0`; parser-produced non-removed
lines always carry `some` there (theorem `parseDiffPatch` invariants). -/
def scanLines (targetCode : String) : List DiffLine → Option FuzzyBest → ℚ → ResolveResult
  | [], best, bestScore =>
    match best with
    | some b => if (2 : ℚ)/5 < bestScore then ⟨b.old_line, b.new_line, .fuzzy⟩
                else ⟨none, 0, .fallback⟩
    | none => ⟨none, 0, .fallback⟩
  | l :: rest, best, bestScore =>
    if l.type = .removed then scanLines targetCode rest best bestScore
    else
      let lineCode := normalizeCode l.content
      if lineCode.length < 3 then scanLines targetCode rest best bestScore
      else if lineCode = targetCode then ⟨l.old_line, l.new_line.getD 0, .exact⟩
      else
        let st := methodUpdate targetCode lineCode l best bestScore
        scanLines targetCode rest st.1 st.2

/-- All diff lines of a file, in hunk order then line order (the nested loops
of lines 213-214 visit exactly this sequence). -/
def allLines (fd : FileDiff) : List DiffLine := (fd.hunks.map DiffHunk.lines).join

/-- `findCorrectLineNumbers` (enhanced-diff-parser.ts 168-288).
`aiProvidedNewLine || 0` is `Option.getD 0` (the ai hint is `undefined` or a
line number; a `0` hint and an absent hint coincide, as in JavaScript). -/
def findCorrectLineNumbers (filePath codeContent : String)
    (aiProvidedNewLine : Option Nat) (fileDiffs : List (String × FileDiff)) :
    ResolveResult :=
  match mapGet fileDiffs filePath with
  | none => ⟨none, aiProvidedNewLine.getD 0, .fallback⟩
  | some fileDiff =>
    if String.mk (trimChars codeContent.data) = "" then
      ⟨none, aiProvidedNewLine.getD 0, .fallback⟩
    else
      let targetCode := normalizeCode codeContent
      if targetCode.length < 5 then ⟨none, aiProvidedNewLine.getD 0, .fallback⟩
      else if targetCode ∈ genericPatterns then ⟨none, aiProvidedNewLine.getD 0, .fallback⟩
      else scanLines targetCode (allLines fileDiff) none 0

/-! ## Specification-side resolver definitions

These follow the words of spec §4.2 (and §7 `AmbiguousMatch`); the theorems
below compare them with `findCorrectLineNumbers` as translated from the code. -/

/-- Spec §4.2 fuzzy score (a): "containment ratio when one normalized string
contains the other and the contained string is ≥15 characters, scored as
`len(shorter)/len(longer)`". -/
def specContainScore (target lineCode : String) : ℚ :=
  if 15 ≤ target.length ∧ strContains lineCode target then
    (target.length : ℚ) / (lineCode.length : ℚ)
  else if 15 ≤ lineCode.length ∧ strContains target lineCode then
    (lineCode.length : ℚ) / (target.length : ℚ)
  else 0

/-- Spec §4.2 fuzzy score (b): "positional character-overlap ratio for strings
both ≥20 characters, counting matching characters at the same index over the
longer length". -/
def specPositionalScore (target lineCode : String) : ℚ :=
  if 20 ≤ target.length ∧ 20 ≤ lineCode.length then
    (countMatchingChars target.data lineCode.data : ℚ) /
      (max target.length lineCode.length : ℚ)
  else 0

/-- Candidate score exactly as the claim words it: the maximum of the
containment score and the positional-overlap score (no extra gate). -/
def claimLineScore (target : String) (l : DiffLine) : ℚ :=
  max (specContainScore target (normalizeCode l.content))
      (specPositionalScore target (normalizeCode l.content))

/-- Candidate score as the code computes it: the positional-overlap score only
participates when it exceeds `0.6` (the amended form of the claim). -/
def specLineScore (target : String) (l : DiffLine) : ℚ :=
  max (specContainScore target (normalizeCode l.content))
      (if (3 : ℚ)/5 < specPositionalScore target (normalizeCode l.content) then
        specPositionalScore target (normalizeCode l.content)
      else 0)

/-- Score of a line as a fuzzy candidate (`Removed` lines are not candidates). -/
def candScore (target : String) (l : DiffLine) : ℚ :=
  if l.type = .removed then 0 else specLineScore target l

/-- Best fuzzy score over all candidate lines. -/
def maxCandScore (target : String) (lines : List DiffLine) : ℚ :=
  lines.foldr (fun l acc => max (candScore target l) acc) 0

/-- Spec-side fuzzy resolution: take the maximum candidate score; accept the
(first, in file order) best-scoring candidate as `Fuzzy` only if the score
exceeds `0.4`, otherwise `Unresolved`. -/
def specFuzzyResolve (target : String) (lines : List DiffLine) : ResolveResult :=
  let best := maxCandScore target lines
  if (2 : ℚ)/5 < best then
    match lines.find? (fun l => !(l.type == LineType.removed) &&
        decide (candScore target l = best)) with
    | some l => ⟨l.old_line, l.new_line.getD 0, .fuzzy⟩
    | none => ⟨none, 0, .fallback⟩
  else ⟨none, 0, .fallback⟩

/-- First non-`Removed` line whose normalized content equals the target
(the spec's exact-match rule). -/
def firstExactMatch (target : String) (lines : List DiffLine) : Option DiffLine :=
  lines.find? (fun l => !(l.type == .removed) && (normalizeCode l.content == target))

/-! ## Line-number bookkeeping invariant of `parseDiffPatch`

`numberedFrom o n ls` says that the lines `ls` carry exactly the numbers
produced by seeding the `old_line`/`new_line` counters with `o`/`n` and
incrementing them per line kind (space/`+` increment `new_line`, space/`-`
increment `old_line`), which is the bookkeeping of lines 110-148 of
`enhanced-diff-parser.ts`. -/

/-- Lines are numbered by the counter recurrence seeded at `(o, n)`. -/
def numberedFrom (o n : Nat) : List DiffLine → Bool
  | [] => true
  | l :: ls =>
    match l.type with
    | .added => l.old_line == none && l.new_line == some n && numberedFrom o (n + 1) ls
    | .removed => l.old_line == some o && l.new_line == none && numberedFrom (o + 1) n ls
    | .context =>
      l.old_line == some o && l.new_line == some n && numberedFrom (o + 1) (n + 1) ls

/-- Counter values after processing `ls` from seed `(o, n)`. -/
def countersAfter (o n : Nat) : List DiffLine → Nat × Nat
  | [] => (o, n)
  | l :: ls =>
    match l.type with
    | .added => countersAfter o (n + 1) ls
    | .removed => countersAfter (o + 1) n ls
    | .context => countersAfter (o + 1) (n + 1) ls

/-- A line as built by the parser at counter state `(co, cn)`. -/
def lineAtCounters (co cn : Nat) (l : DiffLine) : Prop :=
  match l.type with
  | .added => l.old_line = none ∧ l.new_line = some cn
  | .removed => l.old_line = some co ∧ l.new_line = none
  | .context => l.old_line = some co ∧ l.new_line = some cn

/-- Counter state after appending one more line. -/
def stepCounters (co cn : Nat) : LineType → Nat × Nat
  | .added => (co, cn + 1)
  | .removed => (co + 1, cn)
  | .context => (co + 1, cn + 1)

/-- A hunk whose lines follow the counter recurrence from its own header. -/
def HunkOk (h : DiffHunk) : Prop := numberedFrom h.oldStart h.newStart h.lines = true

/-- All hunks of a file are well numbered. -/
def FileOk (f : FileDiff) : Prop := ∀ h ∈ f.hunks, HunkOk h

/-- Invariant of the parse state: every file in the map, the current file and
the current hunk are well numbered, and the live counters agree with the
current hunk's lines. -/
def StateOk (st : ParseState) : Prop :=
  (∀ p f, (p, f) ∈ st.files → FileOk f) ∧
  (∀ f, st.currentFile = some f → FileOk f) ∧
  (∀ h, st.currentHunk = some h →
    HunkOk h ∧ countersAfter h.oldStart h.newStart h.lines = (st.oldLine, st.newLine))

/-- The kind/`Option` invariant of a single diff line, as stated by the spec:
`Added ⇒ old_line = None ∧ new_line = Some`; `Removed ⇒ new_line = None ∧
old_line = Some`; `Context ⇒ both Some`. -/
def lineKindInv (l : DiffLine) : Prop :=
  (l.type = .added → l.old_line = none ∧ ∃ k, l.new_line = some k) ∧
  (l.type = .removed → l.new_line = none ∧ ∃ k, l.old_line = some k) ∧
  (l.type = .context → ∃ a b, l.old_line = some a ∧ l.new_line = some b)

/-- End-of-scan result from the accumulator (lines 280-287:
`bestMatch && bestMatchScore > 0.4`, else the no-match fallback). -/
def finishScan (best : Option FuzzyBest) (bs : ℚ) : ResolveResult :=
  match best with
  | some b => if (2 : ℚ)/5 < bs then ⟨b.old_line, b.new_line, .fuzzy⟩
              else ⟨none, 0, .fallback⟩
  | none => ⟨none, 0, .fallback⟩

/-- `claimBoilerplate`: the boilerplate set exactly as claim C1 words it
(the code's `genericPatterns` additionally lists the `};` string, but that is
already shorter than 5 characters). -/
def claimBoilerplate : List String :=
  [String.mk [rbrace], String.mk [lbrace], "return;", "break;", "continue;", ""]

/-! ## `discussion-manager.ts`: duplicate suppressor -/

/-- `ExistingDiscussionComment` (discussion-manager.ts 12-20).  `file` and
`line` are `null` for general (non-inline) comments. -/
structure ExistingDiscussionComment where
  id : String
  file : Option String
  line : Option Int
  body : String
  author : String
  createdAt : String
  isSystemNote : Bool
deriving DecidableEq, Repr

/-- `\w` of JavaScript regexes: ASCII letters, digits and underscore. -/
def isWordChar (c : Char) : Bool := c.isAlphanum || c = '_'

/-- `.replace(/[^\w\s]/g, ' ')`: non-word, non-whitespace characters become
spaces. -/
def replaceNonWord (c : Char) : Char :=
  if isWordChar c || isJsWs c then c else ' '

/-- Split on whitespace runs (`.split(/\s+/)`).  The empty edge tokens that
JavaScript produces for leading/trailing separators are omitted here: they are
discarded by the `length > 3` filter in every use. -/
def splitTokensAcc : List Char → List Char → List String
  | acc, [] => if acc.isEmpty then [] else [String.mk acc.reverse]
  | acc, c :: rest =>
    if isJsWs c then
      if acc.isEmpty then splitTokensAcc [] rest
      else String.mk acc.reverse :: splitTokensAcc [] rest
    else splitTokensAcc (c :: acc) rest

/-- `normalize` of `calculateSimilarity` (discussion-manager.ts 141-146):
lowercase, replace punctuation by spaces, split on whitespace, keep words
longer than 3 characters; then dedup (the `new Set(...)`). -/
def similarityWords (text : String) : List String :=
  ((splitTokensAcc [] ((text.data.map Char.toLower).map replaceNonWord)).filter
    (fun w => 3 < w.length)).eraseDups

/-- `calculateSimilarity` (discussion-manager.ts 139-159): Jaccard similarity of
the word sets, with both-empty mapped to 1 and one-empty mapped to 0. -/
def calculateSimilarity (text1 text2 : String) : ℚ :=
  let words1 := similarityWords text1
  let words2 := similarityWords text2
  if words1.length = 0 ∧ words2.length = 0 then 1
  else if words1.length = 0 ∨ words2.length = 0 then 0
  else
    let intersection := words1.filter (fun w => words2.contains w)
    let union := (words1 ++ words2).eraseDups
    (intersection.length : ℚ) / (union.length : ℚ)

/-- The `for` loop of `isSimilarCommentExists` (discussion-manager.ts 115-131):
comments with a falsy `line` (`null` or `0`) are skipped, comments outside the
line tolerance are skipped, and the first candidate whose similarity exceeds
`0.6` returns `true`. -/
def isSimilarLoop (line : Int) (commentBody : String) (tol : Int) :
    List ExistingDiscussionComment → Bool
  | [] => false
  | c :: rest =>
    match c.line with
    | none => isSimilarLoop line commentBody tol rest
    | some n =>
      if n = 0 then isSimilarLoop line commentBody tol rest
      else if tol < |n - line| then isSimilarLoop line commentBody tol rest
      else if (3 : ℚ)/5 < calculateSimilarity commentBody c.body then true
      else isSimilarLoop line commentBody tol rest

/-- `isSimilarCommentExists` (discussion-manager.ts 100-134).  The default
`lineToleranceRange` is `3`; call sites pass it explicitly here. -/
def isSimilarCommentExists (file : String) (line : Int) (commentBody : String)
    (existingComments : List ExistingDiscussionComment)
    (lineToleranceRange : Int) : Bool :=
  let fileComments := existingComments.filter (fun c => c.file == some file)
  if fileComments.isEmpty then false
  else isSimilarLoop line commentBody lineToleranceRange fileComments

/-! ### JSON values and `JSON.parse`

Model of the JavaScript JSON values flowing through `cursor-agent.ts`
(src/unnamed/part_009) and the platform `JSON.parse`.  The modeled subset is
ASCII text, integral numbers (no fraction/exponent) and the single-character
string escapes; `\uXXXX` escapes and fractional numbers are outside the
subset and make the modeled parser fail.  Objects keep their fields in parse
order; readers take the last occurrence of a key, matching JavaScript's
last-wins semantics for duplicate keys. -/

inductive Json where
  | null : Json
  | bool (b : Bool) : Json
  | num (n : Int) : Json
  | str (s : String) : Json
  | arr (elems : List Json) : Json
  | obj (fields : List (String × Json)) : Json
deriving Repr, BEq

/-- JSON whitespace (RFC 8259): space, tab, line feed, carriage return. -/
def isJsonWs (c : Char) : Bool :=
  c = ' ' || c = '\t' || c = '\n' || c = '\x0d'

/-- Single-character string escapes accepted by `JSON.parse`. -/
def escChar (c : Char) : Option Char :=
  if c = '"' then some '"'
  else if c = '\\' then some '\\'
  else if c = '/' then some '/'
  else if c = 'b' then some '\x08'
  else if c = 'f' then some '\x0c'
  else if c = 'n' then some '\n'
  else if c = 'r' then some '\x0d'
  else if c = 't' then some '\t'
  else none

/-- String body after the opening quote: content characters plus the rest of
the input after the closing quote.  Raw control characters are rejected, as
`JSON.parse` does. -/
def parseStrBody : List Char → Option (List Char × List Char)
  | [] => none
  | c :: rest =>
    if c = '"' then some ([], rest)
    else if c = '\\' then
      match rest with
      | [] => none
      | e :: rest2 =>
        match escChar e with
        | none => none
        | some d => (parseStrBody rest2).map (fun p => (d :: p.1, p.2))
    else if c.toNat < 32 then none
    else (parseStrBody rest).map (fun p => (c :: p.1, p.2))

/-- A number token must not continue with a fraction or exponent in the
modeled subset. -/
def startsFracOrExp : List Char → Bool
  | [] => false
  | c :: _ => c = '.' || c = 'e' || c = 'E'

/-- Integral JSON number: optional minus sign and a digit run. -/
def parseJsonNum (cs : List Char) : Option (Int × List Char) :=
  match cs with
  | [] => none
  | c :: rest =>
    if c = '-' then
      match spanDigits rest with
      | ([], _) => none
      | (ds, rest2) =>
        if startsFracOrExp rest2 then none
        else some (-(digitsToNat ds : Int), rest2)
    else
      match spanDigits cs with
      | ([], _) => none
      | (ds, rest2) =>
        if startsFracOrExp rest2 then none
        else some ((digitsToNat ds : Int), rest2)

/-- Literal keyword helper: strip an expected prefix. -/
def expectChars (pre cs : List Char) : Option (List Char) :=
  if pre.isPrefixOf cs then some (cs.drop pre.length) else none

mutual

/-- One JSON value, fuel-bounded recursive descent. -/
def parseVal : Nat → List Char → Option (Json × List Char)
  | 0, _ => none
  | Nat.succ fuel, cs =>
    match cs.dropWhile isJsonWs with
    | [] => none
    | c :: rest =>
      if c = '"' then
        (parseStrBody rest).map (fun p => (Json.str (String.mk p.1), p.2))
      else if c = 't' then
        (expectChars [ 'r', 'u', 'e'] rest).map (fun r => (Json.bool true, r))
      else if c = 'f' then
        (expectChars [ 'a', 'l', 's', 'e'] rest).map (fun r => (Json.bool false, r))
      else if c = 'n' then
        (expectChars [ 'u', 'l', 'l'] rest).map (fun r => (Json.null, r))
      else if c = '[' then
        match rest.dropWhile isJsonWs with
        | [] => none
        | d :: rest2 =>
          if d = ']' then some (Json.arr [], rest2)
          else (parseElems fuel (d :: rest2)).map (fun p => (Json.arr p.1, p.2))
      else if c = lbrace then
        match rest.dropWhile isJsonWs with
        | [] => none
        | d :: rest2 =>
          if d = rbrace then some (Json.obj [], rest2)
          else (parseFields fuel (d :: rest2)).map (fun p => (Json.obj p.1, p.2))
      else
        (parseJsonNum (c :: rest)).map (fun p => (Json.num p.1, p.2))

/-- Comma-separated array elements up to the closing bracket. -/
def parseElems : Nat → List Char → Option (List Json × List Char)
  | 0, _ => none
  | Nat.succ fuel, cs =>
    match parseVal fuel cs with
    | none => none
    | some (j, rest) =>
      match rest.dropWhile isJsonWs with
      | [] => none
      | c :: rest2 =>
        if c = ',' then (parseElems fuel rest2).map (fun p => (j :: p.1, p.2))
        else if c = ']' then some ([j], rest2)
        else none

/-- Comma-separated object fields up to the closing brace. -/
def parseFields : Nat → List Char → Option (List (String × Json) × List Char)
  | 0, _ => none
  | Nat.succ fuel, cs =>
    match cs.dropWhile isJsonWs with
    | [] => none
    | c :: rest =>
      if c = '"' then
        match parseStrBody rest with
        | none => none
        | some (key, rest1) =>
          match rest1.dropWhile isJsonWs with
          | [] => none
          | d :: rest2 =>
            if d = ':' then
              match parseVal fuel rest2 with
              | none => none
              | some (v, rest3) =>
                match rest3.dropWhile isJsonWs with
                | [] => none
                | e :: rest4 =>
                  if e = ',' then
                    (parseFields fuel rest4).map
                      (fun p => ((String.mk key, v) :: p.1, p.2))
                  else if e = rbrace then some ([(String.mk key, v)], rest4)
                  else none
            else none
      else none

end

/-- `JSON.parse`: a single value followed only by whitespace; `none` models a
thrown `SyntaxError`.  The fuel is generous: every unit of fuel is spent on a
value or element boundary, each of which consumes input. -/
def Json.parse (s : String) : Option Json :=
  match parseVal (2 * s.length + 4) s.data with
  | none => none
  | some (j, rest) => if (rest.dropWhile isJsonWs).isEmpty then some j else none

/-- Property read `j[key]`: last occurrence wins; `none` models `undefined`
(also for reads on non-objects, where every named property of interest here
is absent). -/
def Json.getField (j : Json) (key : String) : Option Json :=
  match j with
  | Json.obj fields => ((fields.reverse).find? (fun f => f.1 == key)).map (fun f => f.2)
  | _ => none

/-- Property read collapsing `undefined` to `null`: the two are
indistinguishable to every truthiness test in the modeled code. -/
def getFieldD (j : Json) (key : String) : Json :=
  (j.getField key).getD Json.null

/-- JavaScript truthiness of a JSON value. -/
def jsTruthy (j : Json) : Bool :=
  match j with
  | Json.null => false
  | Json.bool b => b
  | Json.num n => n != 0
  | Json.str s => !s.isEmpty
  | Json.arr _ => true
  | Json.obj _ => true

/-- `Object.prototype.hasOwnProperty.call(j, key)`.  Primitives box to
objects without own named properties; a `null` receiver throws, but the
caller (the required-fields check) exits with code 1 either way, so `false`
is the faithful observable. -/
def jsHasOwn (j : Json) (key : String) : Bool :=
  match j with
  | Json.obj fields => fields.any (fun f => f.1 == key)
  | _ => false

/-- `a || b` on JSON values. -/
def jsOrJ (a b : Json) : Json := if jsTruthy a then a else b

/-- `x.length = n` tests: only strings and arrays carry a `length`; on other
values the comparison with `undefined` is false. -/
def jsLenEq0 (j : Json) : Bool :=
  match j with
  | Json.str s => s.length == 0
  | Json.arr l => l.length == 0
  | _ => false

/-- `x.length < n` for the truncation heuristics; `undefined < n` is false. -/
def jsLenLt (j : Json) (n : Nat) : Bool :=
  match j with
  | Json.str s => decide (s.length < n)
  | Json.arr l => decide (l.length < n)
  | _ => false

/-! ### Output cleaning and truncation repair (cursor-agent.ts 311-437)

The cleaning chain of `runCursorAgentReview`: trim, unwrap the cursor-agent
result wrapper, strip markdown code fences, strip text outside the outermost
braces, and repair truncated output.  Regex semantics (greedy/lazy
quantifiers with backtracking, global left-to-right non-overlapping matching)
are reproduced explicitly. -/

/-- `String.prototype.trim`. -/
def jsTrim (s : String) : String := String.mk (trimChars s.data)

/-- Wrapper-format prefix tested at cursor-agent.ts 318. -/
def wrapperPrefix : String := "\x7b\"type\":\"result\""

/-- Closing structure appended by both truncation-repair strategies
(cursor-agent.ts 379 and 395). -/
def closingStructure : String :=
  "\n  ],\n  \"issueBreakdown\": \x7b\x7d,\n  \"nextSteps\": [],\n  \"verdict\": \"\"\n\x7d"

/-- Positions `j` inside the whitespace prefix of `r` holding a newline: the
candidate end positions for the greedy, backtrackable `\s*` of the fence
regex `/```json\s*\n([\s\S]*?)\n```/`, in decreasing (greedy-first) order. -/
def fenceNewlineSplits (r : List Char) : List Nat :=
  ((List.range (r.takeWhile isJsWs).length).filter
    (fun j => (r.takeWhile isJsWs).get? j == some '\n')).reverse

/-- Try the fence pattern just after a `³³³json` marker (`r` is the input
after the marker): greedy `\s*` up to a newline, then the lazy capture up to
the first `\n³³³` terminator, backtracking the `\s*` split on failure. -/
def fenceTryJ (r : List Char) : List Nat → Option (List Char)
  | [] => none
  | j :: js =>
    match findSub (r.drop (j + 1)) "\n```".data with
    | some q => some ((r.drop (j + 1)).take q)
    | none => fenceTryJ r js

/-- Leftmost start position of a full fence-regex match: the extracted
capture of `cleanOutput.match(/```json\s*\n([\s\S]*?)\n```/)`. -/
def fenceSearch : List Char → Option (List Char)
  | [] => none
  | c :: rest =>
    if "```json".data.isPrefixOf (c :: rest) then
      match fenceTryJ ((c :: rest).drop 7) (fenceNewlineSplits ((c :: rest).drop 7)) with
      | some cap => some cap
      | none => fenceSearch rest
    else fenceSearch rest

/-- `.replace(/```json\s*\n?/g, '')` (and the identical `/```json\s*/g` of
parseAIResponse, part_008 line 1047): each marker and the whitespace run
after it is deleted; the greedy `\s*` swallows any newline, so the trailing
`\n?` always matches empty. -/
def replaceJsonFenceMarkers (fuel : Nat) (cs : List Char) : List Char :=
  match cs with
  | [] => []
  | c :: rest =>
    match fuel with
    | 0 => c :: rest
    | Nat.succ fuel2 =>
      if "```json".data.isPrefixOf (c :: rest) then
        replaceJsonFenceMarkers fuel2 (((c :: rest).drop 7).dropWhile isJsWs)
      else c :: replaceJsonFenceMarkers fuel2 rest

/-- `.replace(/\n?```/g, '')`: at each position the optional newline is taken
if present together with a following fence marker. -/
def replaceCloseFence (fuel : Nat) (cs : List Char) : List Char :=
  match cs with
  | [] => []
  | c :: rest =>
    match fuel with
    | 0 => c :: rest
    | Nat.succ fuel2 =>
      if "\n```".data.isPrefixOf (c :: rest) then
        replaceCloseFence fuel2 ((c :: rest).drop 4)
      else if "```".data.isPrefixOf (c :: rest) then
        replaceCloseFence fuel2 ((c :: rest).drop 3)
      else c :: replaceCloseFence fuel2 rest

/-- `.replace(/```\s*/g, '')` of parseAIResponse (part_008 line 1047). -/
def replaceBareFenceMarkers (fuel : Nat) (cs : List Char) : List Char :=
  match cs with
  | [] => []
  | c :: rest =>
    match fuel with
    | 0 => c :: rest
    | Nat.succ fuel2 =>
      if "```".data.isPrefixOf (c :: rest) then
        replaceBareFenceMarkers fuel2 (((c :: rest).drop 3).dropWhile isJsWs)
      else c :: replaceBareFenceMarkers fuel2 rest

/-- `.replace(/^```\s*\n?/, '')` on a string known to start with the marker
(cursor-agent.ts 343, first replace). -/
def stripLeadingFence (cs : List Char) : List Char :=
  (cs.drop 3).dropWhile isJsWs

/-- `.replace(/\n?```\s*$/, '')` (cursor-agent.ts 343, second replace): the
leftmost fence marker followed only by whitespace, with an optional
directly-preceding newline, is removed together with everything after it. -/
def stripTrailingFence (cs : List Char) : List Char :=
  match cs with
  | [] => []
  | c :: rest =>
    if "\n```".data.isPrefixOf (c :: rest) && ((c :: rest).drop 4).all isJsWs then []
    else if "```".data.isPrefixOf (c :: rest) && ((c :: rest).drop 3).all isJsWs then []
    else c :: stripTrailingFence rest

/-- Does the text end with a closing brace (`cleanOutput.endsWith(\x7d)`)? -/
def endsWithCloseBrace (cs : List Char) : Bool :=
  cs.getLast? == some rbrace

/-- Repair strategy 1 (cursor-agent.ts 366-380): global scan for
`/\},\s*\n\s*\{/` — a closing brace and comma, a whitespace run containing a
newline, then an opening brace.  Returns `match.index + 1` of the last
match. -/
def strat1Aux (fuel : Nat) (cs : List Char) (i : Nat) (acc : Option Nat) : Option Nat :=
  match cs with
  | [] => acc
  | [_] => acc
  | c1 :: c2 :: rest2 =>
    match fuel with
    | 0 => acc
    | Nat.succ fuel2 =>
     if c1 = rbrace && c2 = ',' then
      let w := rest2.takeWhile isJsWs
      match rest2.drop w.length with
      | d :: _ =>
        if w.contains '\n' && d = lbrace then
          strat1Aux fuel2 ((c1 :: c2 :: rest2).drop (2 + w.length + 1))
            (i + (2 + w.length + 1)) (some (i + 1))
        else strat1Aux fuel2 (c2 :: rest2) (i + 1) acc
      | [] => strat1Aux fuel2 (c2 :: rest2) (i + 1) acc
     else strat1Aux fuel2 (c2 :: rest2) (i + 1) acc

/-- Repair strategy 2 literal: `"priority":` then one of the three quoted
levels then a closing brace, with whitespace runs between
(cursor-agent.ts 384).  Returns the total match length at this position. -/
def strat2MatchLen (cs : List Char) : Option Nat :=
  if "\"priority\":".data.isPrefixOf cs then
    let r1 := cs.drop 11
    let w1 := r1.takeWhile isJsWs
    let r2 := r1.drop w1.length
    let prio : Option Nat :=
      if "\"High\"".data.isPrefixOf r2 then some 6
      else if "\"Medium\"".data.isPrefixOf r2 then some 8
      else if "\"Low\"".data.isPrefixOf r2 then some 5
      else none
    match prio with
    | none => none
    | some plen =>
      let r3 := r2.drop plen
      let w2 := r3.takeWhile isJsWs
      match r3.drop w2.length with
      | d :: _ => if d = rbrace then some (11 + w1.length + plen + w2.length + 1) else none
      | [] => none
  else none

/-- Repair strategy 2 global scan: end position of the last match of
`/"priority":\s*"(High|Medium|Low)"\s*\}/g`. -/
def strat2Aux (fuel : Nat) (cs : List Char) (i : Nat) (acc : Option Nat) : Option Nat :=
  match cs with
  | [] => acc
  | c :: rest =>
    match fuel with
    | 0 => acc
    | Nat.succ fuel2 =>
      match strat2MatchLen (c :: rest) with
      | some len =>
        -- a match is at least 12 characters long, so advancing by `len` from
        -- `c :: rest` is the same as advancing by `len - 1` from `rest`
        strat2Aux fuel2 (rest.drop (len - 1)) (i + len) (some (i + len))
      | none => strat2Aux fuel2 rest (i + 1) acc

/-- Truncation repair (cursor-agent.ts 361-406): strategy 1, then strategy 2,
then truncation to the last closing brace. -/
def repairTruncated (cs : List Char) : List Char :=
  match strat1Aux cs.length cs 0 none with
  | some p => cs.take p ++ closingStructure.data
  | none =>
    match strat2Aux cs.length cs 0 none with
    | some p => cs.take p ++ closingStructure.data
    | none =>
      match findLastSub cs [ rbrace] with
      | some n => if n > 0 then cs.take (n + 1) else cs
      | none => cs

/-- Count of `/:\s*"/g` matches: a colon, a whitespace run, then a quote;
after a match scanning resumes past the quote (cursor-agent.ts 420). -/
def countColonQuote (fuel : Nat) (cs : List Char) : Nat :=
  match cs with
  | [] => 0
  | c :: rest =>
    match fuel with
    | 0 => 0
    | Nat.succ fuel2 =>
      if c = ':' then
        match rest.drop (rest.takeWhile isJsWs).length with
        | d :: rest2 =>
          if d = '"' then 1 + countColonQuote fuel2 rest2 else countColonQuote fuel2 rest
        | [] => countColonQuote fuel2 rest
      else countColonQuote fuel2 rest

/-- Count of `/",/g` matches: a quote directly followed by a comma
(cursor-agent.ts 421). -/
def countQuoteComma (cs : List Char) : Nat :=
  match cs with
  | [] => 0
  | [_] => 0
  | c :: d :: rest =>
    if c = '"' && d = ',' then 1 + countQuoteComma rest
    else countQuoteComma (d :: rest)

/-- The replacement callback's scan of `.replace(/([^\\])"/g, ...)`
(cursor-agent.ts 417-428): at each non-backslash character followed by a
quote, the heuristic counts `:\s*"` openers and `",` closers in the prefix
of the ORIGINAL text (the regex offsets refer to the unmodified input) and
escapes the quote when openers outnumber closers and the preceding character
is not a colon or an opening bracket or brace. -/
def fixQuotesAux (orig : List Char) : List Char → Nat → List Char
  | [], _ => []
  | [c], _ => [c]
  | c :: d :: rest2, i =>
    if c ≠ '\\' && d = '"' then
      let before := orig.take (i + 1)
      if countColonQuote before.length before > countQuoteComma before
          && c ≠ ':' && c ≠ '[' && c ≠ lbrace then
        c :: '\\' :: '"' :: fixQuotesAux orig rest2 (i + 2)
      else c :: '"' :: fixQuotesAux orig rest2 (i + 2)
    else c :: fixQuotesAux orig (d :: rest2) (i + 1)

/-- `fixedOutput` of cursor-agent.ts 416-428. -/
def fixUnescapedQuotes (s : String) : String :=
  String.mk (fixQuotesAux s.data s.data 0)

/-- Wrapper unwrapping (cursor-agent.ts 318-329): when the trimmed output
starts with the result-wrapper prefix and parses, a truthy `result` field
replaces the working text.  A truthy non-string `result` would later raise a
`TypeError` on `.includes`, caught by the enclosing JSON-path `try`;
that is the `.error` case. -/
def unwrapResult (s : String) : Except Unit String :=
  if jsStartsWith s wrapperPrefix then
    match Json.parse s with
    | none => Except.ok s
    | some w =>
      match w.getField "result" with
      | none => Except.ok s
      | some v =>
        if jsTruthy v then
          match v with
          | Json.str t => Except.ok t
          | _ => Except.error ()
        else Except.ok s
  else Except.ok s

/-- Cleaning steps after unwrapping (cursor-agent.ts 331-406): fence
stripping, text outside the outermost braces, truncation repair. -/
def cleanAfterWrapper (s : String) : String :=
  let cs := s.data
  let cs1 :=
    if strContains s "```json" then
      match fenceSearch cs with
      | some cap => cap
      | none =>
        let csm := replaceJsonFenceMarkers cs.length cs
        replaceCloseFence csm.length csm
    else if "```".data.isPrefixOf cs then
      stripTrailingFence (stripLeadingFence cs)
    else cs
  let cs2 :=
    match findSub cs1 [ lbrace] with
    | some n => if n > 0 then cs1.drop n else cs1
    | none => cs1
  let cs3 :=
    match findLastSub cs2 [ rbrace] with
    | some n => if n > 0 && n + 1 < cs2.length then cs2.take (n + 1) else cs2
    | none => cs2
  let cs4 := if endsWithCloseBrace cs3 then cs3 else repairTruncated cs3
  String.mk cs4

/-- The full cleaning chain of the JSON path (cursor-agent.ts 315-406). -/
def cleanCursorOutput (stdout : String) : Except Unit String :=
  match unwrapResult (jsTrim stdout) with
  | Except.error e => Except.error e
  | Except.ok s => Except.ok (cleanAfterWrapper s)

/-! ### Post-parse validation and `fixIncompleteJSON` (cursor-agent.ts 82-174, 440-492)

Property reads on JavaScript values can raise: `x?.endsWith(...)` throws a
`TypeError` when `x` is truthy but not a string.  Helpers returning
`Option Bool` model this: `none` is a thrown `TypeError`, propagating to the
enclosing JSON-path `try` and so to the markdown fallback. -/

/-- `x?.endsWith(suf)`: `undefined`/`null` short-circuit to a falsy result;
a truthy non-string receiver throws. -/
def jsEndsWithQ (j : Json) (suf : String) : Option Bool :=
  match j with
  | Json.null => some false
  | Json.str s => some (jsEndsWith s suf)
  | _ => none

/-- `x?.includes(sub)` under the same conventions. -/
def jsIncludesQ (j : Json) (sub : String) : Option Bool :=
  match j with
  | Json.null => some false
  | Json.str s => some (strContains s sub)
  | _ => none

/-- `x?.match(/[^;\s]\s*$/)` as a truthiness test: the pattern matches
exactly when the text, after dropping trailing whitespace, is nonempty and
does not end in a semicolon. -/
def jsMatchNonClosureQ (j : Json) : Option Bool :=
  match j with
  | Json.null => some false
  | Json.str s =>
    some (match s.data.reverse.dropWhile isJsWs with
          | [] => false
          | c :: _ => c != ';')
  | _ => none

/-- Short-circuiting `||` over possibly-throwing operands. -/
def orQ (a : Option Bool) (b : Unit → Option Bool) : Option Bool :=
  match a with
  | none => none
  | some true => some true
  | some false => b ()

/-- The per-issue incompleteness test of `fixIncompleteJSON`
(cursor-agent.ts 122-135), in source evaluation order: the first seven
disjuncts cannot throw; the optional-chained ones can. -/
def issueIncomplete (issue : Json) : Option Bool :=
  let recF := getFieldD issue "recommendation"
  let codeEx := getFieldD issue "codeExample"
  if !jsTruthy recF || jsLenLt recF 10 || !jsTruthy (getFieldD issue "effort")
      || !jsTruthy (getFieldD issue "impact") || !jsTruthy (getFieldD issue "priority")
      || !jsTruthy codeEx || jsLenLt codeEx 10 then
    some true
  else
    orQ (jsEndsWithQ (getFieldD issue "issue") "...") (fun _ =>
      orQ (jsEndsWithQ recF "...") (fun _ =>
        orQ (jsEndsWithQ codeEx "...") (fun _ =>
          orQ (jsIncludesQ codeEx "\"<") (fun _ =>
            jsMatchNonClosureQ codeEx))))

/-- The pop loop of `fixIncompleteJSON` (cursor-agent.ts 114-144): up to
`min 3 issues.length` trailing issues are dropped while incomplete; a falsy
trailing element breaks the loop. -/
def popIncomplete (issues : List Json) : Nat → Option (List Json)
  | 0 => some issues
  | Nat.succ k =>
    match issues.getLast? with
    | none => some issues
    | some last =>
      if !jsTruthy last then some issues
      else
        match issueIncomplete last with
        | none => none
        | some true => popIncomplete issues.dropLast k
        | some false => some issues

/-- Default assessment inserted by `fixIncompleteJSON` (cursor-agent.ts 86-93). -/
def defaultAssessment : Json :=
  Json.obj [("summary", Json.str "Review data incomplete"),
            ("strengths", Json.arr []),
            ("weaknesses", Json.arr []),
            ("recommendations", Json.arr [])]

/-- One default metric row (cursor-agent.ts 97-105). -/
def mkMetric (cat : String) (count : Int) (thr status : Json) : Json :=
  Json.obj [("category", Json.str cat), ("count", Json.num count),
            ("threshold", thr), ("status", status)]

/-- Default metrics inserted by `fixIncompleteJSON` (cursor-agent.ts 96-106). -/
def defaultMetrics : Json :=
  Json.arr [mkMetric "Critical Issues" 0 (Json.num 5) (Json.str "Pass"),
            mkMetric "Moderate Issues" 0 (Json.num 10) (Json.str "Pass"),
            mkMetric "Minor Issues" 0 (Json.num 15) (Json.str "Pass"),
            mkMetric "Test Coverage Issues" 0 Json.null Json.null,
            mkMetric "Type Safety Issues" 0 Json.null Json.null,
            mkMetric "Console Statements" 0 Json.null Json.null,
            mkMetric "Security Issues" 0 Json.null Json.null]

/-- Default next steps inserted by `fixIncompleteJSON` (cursor-agent.ts 156-164). -/
def defaultNextSteps : Json :=
  Json.arr [Json.obj [("title", Json.str "Review inline comments"),
                      ("description", Json.str "Address issues identified in the review"),
                      ("effort", Json.str "1 hour")]]

/-- Property write `j[key] = v`.  Objects keep one binding per key after the
write; on a primitive receiver strict-mode assignment throws (`none`); the
exotic case of a top-level array receiving named properties is folded into
the throwing case. -/
def setField (j : Json) (key : String) (v : Json) : Option Json :=
  match j with
  | Json.obj fields => some (Json.obj (fields.filter (fun f => f.1 != key) ++ [(key, v)]))
  | _ => none

/-- `issues.filter(i => i.severity === sev)` (strict string equality). -/
def severityFilter (issues : List Json) (sev : String) : List Json :=
  issues.filter (fun i => getFieldD i "severity" == Json.str sev)

/-- `issues.filter(...).map(i => i.title)`; an absent title reads as a
nullish placeholder. -/
def severityTitles (issues : List Json) (sev : String) : Json :=
  Json.arr ((severityFilter issues sev).map (fun i => getFieldD i "title"))

/-- `fixIncompleteJSON` (cursor-agent.ts 82-174): fill missing top-level
fields with defaults, drop trailing incomplete issues.  `none` models a
thrown `TypeError` (see the helper conventions above). -/
def fixIncompleteJSON (rd : Json) : Option Json := do
  let rd1 ←
    if !jsTruthy (getFieldD rd "assessment") then setField rd "assessment" defaultAssessment
    else some rd
  let m := getFieldD rd1 "metrics"
  let rd2 ←
    if !jsTruthy m || jsLenEq0 m then setField rd1 "metrics" defaultMetrics
    else some rd1
  let rd3 ←
    if !jsTruthy (getFieldD rd2 "issues") then setField rd2 "issues" (Json.arr [])
    else some rd2
  let rd4 ←
    match getFieldD rd3 "issues" with
    | Json.arr l =>
      if l.length > 0 then
        (popIncomplete l (min 3 l.length)).bind (fun l2 => setField rd3 "issues" (Json.arr l2))
      else some rd3
    | _ => some rd3
  let rd5 ←
    if !jsTruthy (getFieldD rd4 "issueBreakdown") then
      match getFieldD rd4 "issues" with
      | Json.arr l =>
        setField rd4 "issueBreakdown"
          (Json.obj [("critical", severityTitles l "critical"),
                     ("moderate", severityTitles l "moderate"),
                     ("minor", severityTitles l "minor")])
      | _ => none
    else some rd4
  let rd6 ←
    if !jsTruthy (getFieldD rd5 "nextSteps") then setField rd5 "nextSteps" defaultNextSteps
    else some rd5
  if !jsTruthy (getFieldD rd6 "verdict") then
    match getFieldD rd6 "issues" with
    | Json.arr l =>
      setField rd6 "verdict"
        (Json.str (if (severityFilter l "critical").length > 0 then "REQUEST CHANGES"
                   else "APPROVE WITH MINOR CHANGES"))
    | _ => none
  else some rd6

/-- The completeness validation (cursor-agent.ts 440-461): missing or falsy
`verdict`, missing or empty `nextSteps`, missing `issueBreakdown`, or a
truncated-looking last issue.  A `null` last element throws on the property
read (`none`).  A truthy non-array `issues` value skips the last-issue check
except for nonempty strings, which index to a character whose
`recommendation` is undefined. -/
def computeIsIncomplete (rd : Json) : Option Bool :=
  let v1 := !jsTruthy (getFieldD rd "verdict")
  let ns := getFieldD rd "nextSteps"
  let v2 := !jsTruthy ns || jsLenEq0 ns
  let v3 := !jsTruthy (getFieldD rd "issueBreakdown")
  let issuesJ := getFieldD rd "issues"
  if jsTruthy issuesJ then
    match issuesJ with
    | Json.arr [] => some (v1 || v2 || v3)
    | Json.arr (x :: xs) =>
      match (x :: xs).getLast? with
      | some Json.null => none
      | some last =>
        let recF := getFieldD last "recommendation"
        some (v1 || v2 || v3 || !jsTruthy recF || jsLenLt recF 10)
      | none => some (v1 || v2 || v3)
    | Json.str _ => some true
    | _ => some (v1 || v2 || v3)
  else some (v1 || v2 || v3)

/-- The JSON path of the big `try` (cursor-agent.ts 313-497): clean, parse,
retry after the quote fix, validate completeness, repair.  `.error ()` is any
thrown error, answered by the markdown fallback.  The metrics/issue-count
consistency block (lines 463-487) only logs and is elided; inputs whose
metrics or issues arrays contain `null` entries could make that logging
itself throw and are outside the modeled subset. -/
def jsonPathAttempt (stdout : String) : Except Unit Json :=
  match cleanCursorOutput stdout with
  | Except.error _ => Except.error ()
  | Except.ok cleaned =>
    let parsed :=
      match Json.parse cleaned with
      | some rd => some rd
      | none => Json.parse (fixUnescapedQuotes cleaned)
    match parsed with
    | none => Except.error ()
    | some rd =>
      match computeIsIncomplete rd with
      | none => Except.error ()
      | some incomplete =>
        if incomplete then
          match fixIncompleteJSON rd with
          | none => Except.error ()
          | some rd2 => Except.ok rd2
        else Except.ok rd

/-- Return value of `parseMarkdownReview` (part_008 246-427): an object with
exactly the keys `inlineComments`, `metrics`, `issueBreakdown`, `nextSteps`,
`verdict` and `assessment` — never an `issues` key.  The values shown are the
defaults produced when no markdown section matches; on richer markdown the
extracted values differ, but the caller's required-fields check rejects the
object for its missing `issues` key before any value is read, so the key set
is the only observable. -/
def parseMarkdownReview (markdown : String) : Json :=
  Json.obj [("inlineComments", Json.arr []),
            ("metrics", Json.arr []),
            ("issueBreakdown", Json.obj [("critical", Json.arr []),
                                         ("moderate", Json.arr []),
                                         ("minor", Json.arr [])]),
            ("nextSteps", Json.arr []),
            ("verdict", Json.null),
            ("assessment",
              Json.obj [("grade", Json.str "B"), ("score", Json.num 80),
                        ("summary", Json.str ""),
                        ("strengths", Json.arr []), ("weaknesses", Json.arr []),
                        ("recommendations",
                          Json.arr [Json.str "Review and address critical issues",
                                    Json.str "Improve test coverage",
                                    Json.str "Follow best practices"])])]

/-- `parseAIResponse` of the three-phase pipeline (part_008 1043-1069): trim,
delete fence markers globally, strip text before the first `\x7b` and after
the last `\x7d`, then parse — throwing (`.error`) on failure instead of
repairing. -/
def parseAIResponse (output : String) : Except Unit Json :=
  let cs0 := (jsTrim output).data
  let cs0b := replaceJsonFenceMarkers cs0.length cs0
  let cs1 := replaceBareFenceMarkers cs0b.length cs0b
  let cs2 :=
    match findSub cs1 [ lbrace] with
    | some n => if n > 0 then cs1.drop n else cs1
    | none => cs1
  let cs3 :=
    match findLastSub cs2 [ rbrace] with
    | some n => if n + 1 < cs2.length then cs2.take (n + 1) else cs2
    | none => cs2
  match Json.parse (String.mk cs3) with
  | some j => Except.ok j
  | none => Except.error ()

/-- The required top-level fields (cursor-agent.ts 522-526). -/
def requiredFields : List String := ["assessment", "metrics", "issues"]

/-- Required-fields and assessment validation (cursor-agent.ts 521-541):
a missing field or a falsy assessment is `process.exit(1)`. -/
def validateReview (rd : Json) : Except Nat Json :=
  if (requiredFields.filter (fun f => !jsHasOwn rd f)).length > 0 then Except.error 1
  else if !jsTruthy (getFieldD rd "assessment") then Except.error 1
  else Except.ok rd

/-- One changed file of the MR diff (`GitLabChange`): the fields read by the
line-position calculator. -/
structure GitLabChange where
  new_path : String
  diff : String
deriving DecidableEq, Repr

/-- String-valued map updated with `Map.set` overwrite semantics
(diff-line-calculator.ts 163-166). -/
def strMapSet (m : List (String × String)) (k v : String) : List (String × String) :=
  match m with
  | [] => [(k, v)]
  | (k2, v2) :: rest => if k2 = k then (k, v) :: rest else (k2, v2) :: strMapSet rest k v

/-- `Map.get`. -/
def strMapGet (m : List (String × String)) (k : String) : Option String :=
  match m with
  | [] => none
  | (k2, v2) :: rest => if k2 = k then some v2 else strMapGet rest k

/-- A hunk of `parseDiffHunks` (diff-line-calculator.ts 19-26). -/
structure CalcHunk where
  oldStart : Int
  oldCount : Int
  newStart : Int
  newCount : Int
  lines : List String
deriving DecidableEq, Repr

/-- Optional `,count` group of the hunk-header regex: absent means default 1;
a comma not followed by digits fails the whole match (the following `\s+`
cannot match the comma). -/
def matchOptCount (r : List Char) : Option (Int × List Char) :=
  match r with
  | c :: r2 =>
    if c = ',' then
      match spanDigits r2 with
      | ([], _) => none
      | (ds, r3) => some ((digitsToNat ds : Int), r3)
    else some (1, r)
  | [] => some (1, r)

/-- Hunk-header regex of diff-line-calculator.ts line 41:
`/^@@\s+-(\d+)(?:,(\d+))?\s+\+(\d+)(?:,(\d+))?\s+@@/`. -/
def matchCalcHunkHeader (line : String) : Option (Int × Int × Int × Int) :=
  let cs := line.data
  if "@@".data.isPrefixOf cs then
    let r1 := cs.drop 2
    let w1 := r1.takeWhile isJsWs
    if w1.isEmpty then none
    else
      match r1.drop w1.length with
      | c :: r2 =>
        if c = '-' then
          match spanDigits r2 with
          | ([], _) => none
          | (ds1, r3) =>
            match matchOptCount r3 with
            | none => none
            | some (oc, r4) =>
              let w2 := r4.takeWhile isJsWs
              if w2.isEmpty then none
              else
                match r4.drop w2.length with
                | d :: r5 =>
                  if d = '+' then
                    match spanDigits r5 with
                    | ([], _) => none
                    | (ds2, r6) =>
                      match matchOptCount r6 with
                      | none => none
                      | some (nc, r7) =>
                        let w3 := r7.takeWhile isJsWs
                        if w3.isEmpty then none
                        else if "@@".data.isPrefixOf (r7.drop w3.length) then
                          some ((digitsToNat ds1 : Int), oc, (digitsToNat ds2 : Int), nc)
                        else none
                  else none
                | [] => none
        else none
      | [] => none
  else none

/-- The accumulation loop of `parseDiffHunks` (diff-line-calculator.ts
31-70): a header retires the current hunk and opens a new one; `+`/`-`/space
lines are appended to the current hunk; other lines are skipped. -/
def calcHunksLoop : List String → Option CalcHunk → List CalcHunk
  | [], cur =>
    (match cur with
     | some h => [h]
     | none => [])
  | l :: rest, cur =>
    match matchCalcHunkHeader l with
    | some (a, b, c2, d) =>
      (match cur with
       | some h => h :: calcHunksLoop rest (some ⟨a, b, c2, d, []⟩)
       | none => calcHunksLoop rest (some ⟨a, b, c2, d, []⟩))
    | none =>
      match cur with
      | some h =>
        if jsStartsWith l "+" || jsStartsWith l "-" || jsStartsWith l " " then
          calcHunksLoop rest (some { h with lines := h.lines ++ [l] })
        else calcHunksLoop rest cur
      | none => calcHunksLoop rest cur

/-- `parseDiffHunks` (diff-line-calculator.ts 31-70). -/
def parseDiffHunks (diff : String) : List CalcHunk :=
  calcHunksLoop (splitLines diff) none

/-- Inner line scan of `calculateLinePosition` (diff-line-calculator.ts
108-129): `-` advances only the old counter; `+` advances the new counter and
matches with a null old line; context lines advance both and match with both. -/
def calcScanLines (target : Int) : List String → Int → Int → Option (Int × Option Int)
  | [], _, _ => none
  | l :: rest, curNew, curOld =>
    if jsStartsWith l "-" then calcScanLines target rest curNew (curOld + 1)
    else if jsStartsWith l "+" then
      if curNew = target then some (curNew, none)
      else calcScanLines target rest (curNew + 1) curOld
    else
      if curNew = target then some (curNew, some curOld)
      else calcScanLines target rest (curNew + 1) (curOld + 1)

/-- Outer hunk loop of `calculateLinePosition` (diff-line-calculator.ts
101-131): only hunks whose new-file range covers the target are scanned. -/
def calcHunkSearch (target : Int) : List CalcHunk → Option (Int × Option Int)
  | [] => none
  | h :: rest =>
    if target ≥ h.newStart && target ≤ h.newStart + h.newCount - 1 then
      match calcScanLines target h.lines h.newStart h.oldStart with
      | some r => some r
      | none => calcHunkSearch target rest
    else calcHunkSearch target rest

/-- `calculateLinePosition` (diff-line-calculator.ts 88-136).  The target is
`issue.new_line || issue.line || 0`; at this call site both fields were just
set to the same provided value, so it is a single parameter here. -/
def calculateLinePosition (providedNewLine : Int) (fileDiff : String) : Int × Option Int :=
  match parseDiffHunks fileDiff with
  | [] => (providedNewLine, none)
  | h :: rest =>
    match calcHunkSearch providedNewLine (h :: rest) with
    | some r => r
    | none => (providedNewLine, none)

/-- An issue after Step 2 of `runCursorAgentReview` (cursor-agent.ts
547-585): the original parsed object plus the resolved path and line
fields merged back in. -/
structure ProcessedIssue where
  raw : Json
  file : String
  line : Int
  new_line : Int
  old_line : Option Int
deriving BEq, Repr

/-- String use of a JSON value.  The fields this is applied to are file
paths and issue texts; non-string truthy values there are outside the
modeled subset. -/
def jsAsStr (j : Json) : String :=
  match j with
  | Json.str s => s
  | _ => ""

/-- Numeric use of a JSON value, likewise for line-number fields. -/
def jsAsInt (j : Json) : Int :=
  match j with
  | Json.num n => n
  | _ => 0

/-- The per-issue normalization of Step 2 (cursor-agent.ts 549-571):
`new_path || file || ''` and `new_line || line || diff_line || 0`. -/
def prepareIssue (issue : Json) : Json × String × Int :=
  let filePathJ := jsOrJ (getFieldD issue "new_path")
    (jsOrJ (getFieldD issue "file") (Json.str ""))
  let providedJ := jsOrJ (getFieldD issue "new_line")
    (jsOrJ (getFieldD issue "line") (jsOrJ (getFieldD issue "diff_line") (Json.num 0)))
  (issue, jsAsStr filePathJ, jsAsInt providedJ)

/-- `calculateLinePositionsForIssues` per issue (diff-line-calculator.ts
168-182): a missing or empty (falsy) diff keeps the provided line with a
null old line; otherwise the positions are calculated from the hunks. -/
def calcPositionsForIssue (diffMap : List (String × String))
    (p : Json × String × Int) : ProcessedIssue :=
  match strMapGet diffMap p.2.1 with
  | none => ⟨p.1, p.2.1, p.2.2, p.2.2, none⟩
  | some d =>
    if d.isEmpty then ⟨p.1, p.2.1, p.2.2, p.2.2, none⟩
    else
      let pos := calculateLinePosition p.2.2 d
      ⟨p.1, p.2.1, p.2.2, pos.1, pos.2⟩

/-- Step 2 (cursor-agent.ts 547-585 with diff-line-calculator.ts 156-185):
build the path-to-diff map with set-overwrite semantics, then resolve every
issue's positions. -/
def step2 (issues : List Json) (changes : List GitLabChange) : List ProcessedIssue :=
  let diffMap := changes.foldl (fun m c => strMapSet m c.new_path c.diff) []
  issues.map (fun i => calcPositionsForIssue diffMap (prepareIssue i))

/-- Step 3 (cursor-agent.ts 587-609): when existing discussions were loaded,
drop every issue for which `isSimilarCommentExists` finds a nearby similar
comment; when they are unavailable (`none`), the filter is skipped entirely. -/
def dedupeFilter (existing : Option (List ExistingDiscussionComment))
    (issues : List ProcessedIssue) : List ProcessedIssue :=
  match existing with
  | none => issues
  | some comments =>
    issues.filter (fun issue =>
      let filePath := jsAsStr (jsOrJ (getFieldD issue.raw "new_path")
        (jsOrJ (Json.str issue.file) (Json.str "")))
      let lineNumber := if issue.new_line ≠ 0 then issue.new_line
        else if issue.line ≠ 0 then issue.line else 0
      let body := jsAsStr (jsOrJ (getFieldD issue.raw "issue") (Json.str ""))
      !(isSimilarCommentExists filePath lineNumber body comments 3))

/-- `(reviewData.issues || []).map(...)` (cursor-agent.ts 549): a falsy
`issues` maps an empty array; a truthy non-array has no `.map` and throws
outside any `try`, killing the process with a nonzero exit. -/
def issuesOf (rd : Json) : Except Nat (List Json) :=
  match getFieldD rd "issues" with
  | Json.arr l => Except.ok l
  | j => if jsTruthy j then Except.error 1 else Except.ok []

/-- Parse-or-fallback (cursor-agent.ts 313-519): the JSON path, then the
markdown path whose result reaches the same required-fields validation.
`parseMarkdownReview` is total, so its inner catch (exit 1) is unreachable. -/
def reviewPipelineCore (stdout : String) : Except Nat Json :=
  match jsonPathAttempt stdout with
  | Except.ok rd => validateReview rd
  | Except.error _ => validateReview (parseMarkdownReview stdout)

/-- The output-processing tail of `runCursorAgentReview` (cursor-agent.ts
311-616) from the raw agent stdout to the deduplicated issue list:
`.error n` is `process.exit(n)` (or an equivalent fatal crash). -/
def processCursorAgentOutput (stdout : String)
    (existing : Option (List ExistingDiscussionComment))
    (changes : List GitLabChange) : Except Nat (List ProcessedIssue) :=
  match reviewPipelineCore stdout with
  | Except.error n => Except.error n
  | Except.ok rd =>
    match issuesOf rd with
    | Except.error n => Except.error n
    | Except.ok issues => Except.ok (dedupeFilter existing (step2 issues changes))

/-- `runCursorAgentReview` (cursor-agent.ts 179-726) at the collaborator
boundary: a missing API key skips the review (`ok none`); a throwing
discussions fetch (part_006 91-94 rethrows) reaches the outer catch and
exits 1; a missing diff exits 1 (line 206); a failed or timed-out agent
spawn rejects into the outer catch and exits 1 (lines 712-725); empty agent
output exits 1 (lines 299-307). -/
def runCursorAgentReviewModel (apiKeyPresent : Bool)
    (fetchResult : Except Unit (Option (List ExistingDiscussionComment)))
    (diffData : Option (List GitLabChange))
    (agentResult : Except Unit String) : Except Nat (Option (List ProcessedIssue)) :=
  if !apiKeyPresent then Except.ok none
  else
    match fetchResult with
    | Except.error _ => Except.error 1
    | Except.ok existing =>
      match diffData with
      | none => Except.error 1
      | some changes =>
        match agentResult with
        | Except.error _ => Except.error 1
        | Except.ok stdout =>
          if (jsTrim stdout).length = 0 then Except.error 1
          else (processCursorAgentOutput stdout existing changes).map some

/-- The review step of `main` (index.ts 112-123): the three-phase review is
tried first; any throw from it falls back to the single-phase
`runCursorAgentReview`. -/
def mainReviewStep (threePhase : Except Unit (Option (List ProcessedIssue)))
    (apiKeyPresent : Bool)
    (fetchResult : Except Unit (Option (List ExistingDiscussionComment)))
    (diffData : Option (List GitLabChange))
    (agentResult : Except Unit String) : Except Nat (Option (List ProcessedIssue)) :=
  match threePhase with
  | Except.ok r => Except.ok r
  | Except.error _ => runCursorAgentReviewModel apiKeyPresent fetchResult diffData agentResult

/-! ## Claim theorems: the line position resolver (C1, C2, C4) -/

/-- Fixture for C1: a file diff with one real context line. -/
def fdC1 : FileDiff :=
  ⟨"h.ts", "h.ts", false, false,
   [⟨1, 1, 1, 1, [⟨.context, "some real content here", some 1, some 1, 2⟩], "@@ -1,1 +1,1 @@"⟩]⟩

/-- Fixture for the C2 counterexample: a context line whose content is
exactly the boilerplate string `return;`. -/
def fdC2 : FileDiff :=
  ⟨"f.ts", "f.ts", false, false,
   [⟨1, 1, 1, 1, [⟨.context, "return;", some 1, some 1, 2⟩], "@@ -1,1 +1,1 @@"⟩]⟩

/-- Fixture for the C2 witness: an added line with a real statement. -/
def fdC2w : FileDiff :=
  ⟨"w.ts", "w.ts", false, false,
   [⟨1, 0, 1, 1, [⟨.added, "const value = compute(42);", none, some 1, 2⟩], "@@ -1,0 +1,1 @@"⟩]⟩

/-- Fixture for the C4 counterexample: a context line sharing a 10-character
prefix with the 20-character target, giving positional overlap 10/21 — above
the 0.4 acceptance threshold but below the 0.6 gate. -/
def fdC4 : FileDiff :=
  ⟨"c.ts", "c.ts", false, false,
   [⟨3, 1, 4, 1, [⟨.context, "aaaaaaaaaaccccccccccc", some 3, some 4, 2⟩], "@@ -3,1 +4,1 @@"⟩]⟩

/-- Candidate line of the C4 counterexample. -/
def lC4 : DiffLine := ⟨.context, "aaaaaaaaaaccccccccccc", some 3, some 4, 2⟩

/-- Fixture for the C4 witness: the target is contained in the candidate. -/
def fdC4w : FileDiff :=
  ⟨"d.ts", "d.ts", false, false,
   [⟨7, 1, 8, 1, [⟨.context, "xx abcdefghijklmnop yy", some 7, some 8, 2⟩], "@@ -7,1 +8,1 @@"⟩]⟩

/-- Diff text of the C3 witness. -/
def c3Str : String :=
  "diff --git a/f.ts b/f.ts\n@@ -1,2 +1,2 @@\n alpha\n-beta\n+gamma"

/-- `parseDiffPatch c3Str` result for file `f.ts`. -/
def c3Fd : FileDiff :=
  ⟨"f.ts", "f.ts", false, false,
   [⟨1, 2, 1, 2,
     [⟨.context, "alpha", some 1, some 1, 3⟩,
      ⟨.removed, "beta", some 2, none, 4⟩,
      ⟨.added, "gamma", none, some 2, 5⟩], "@@ -1,2 +1,2 @@"⟩]⟩

/-- Diff text of the C6 counterexample and witness: an added line precedes
the context line. -/
def c6Str : String :=
  "diff --git a/g.ts b/g.ts\n@@ -5,1 +5,2 @@\n+extra line one\n keep this line"

/-- The hunk `parseDiffPatch c6Str` produces. -/
def c6Hunk : DiffHunk :=
  ⟨5, 1, 5, 2,
   [⟨.added, "extra line one", none, some 5, 3⟩,
    ⟨.context, "keep this line", some 5, some 6, 4⟩], "@@ -5,1 +5,2 @@"⟩

/-- `parseDiffPatch c6Str` result for file `g.ts`. -/
def c6Fd : FileDiff := ⟨"g.ts", "g.ts", false, false, [c6Hunk]⟩

/-- The context line of the C6 fixture. -/
def c6Line : DiffLine := ⟨.context, "keep this line", some 5, some 6, 4⟩

/-- Diff text of C7 scenario 1: hunk `@@ -1699,7 +1699,7 @@` with three
context lines, one removed line, the added line, then two context lines. -/
def c7StrA : String :=
  "diff --git a/app.ts b/app.ts\n@@ -1699,7 +1699,7 @@\n A\n B\n C\n-removedLine\n+context.getImm(), null);\n D\n E"

/-- Diff text of C7 scenario 2: hunk `@@ -10,3 +10,4 @@` where the
`console.log(\"start\");` line is the sole addition after one context line. -/
def c7StrB : String :=
  "diff --git a/b.ts b/b.ts\n@@ -10,3 +10,4 @@\n foo1\n+console.log(\"start\");\n bar1\n baz1"

/-- Existing comment of the C5 witness. -/
def c5Comment : ExistingDiscussionComment :=
  ⟨"d1-n1", some "src/a.ts", some 12, "fix it now ok", "alice", "2024-01-01T00:00:00Z", false⟩

/-- Existing comment of the C10 witness: only words of length at most 3. -/
def c10Comment : ExistingDiscussionComment :=
  ⟨"d2-n2", some "lib/b.ts", some 5, "ok to go", "bob", "2024-01-02T00:00:00Z", false⟩

end MRReviewer

namespace MRReviewer

/-- `List.dropWhile` never lengthens a list. -/
theorem dropWhile_length_le (p : Char → Bool) (l : List Char) :
    (l.dropWhile p).length ≤ l.length := by
  induction l with
  | nil => simp [List.dropWhile]
  | cons c rest ih =>
    by_cases h : p c
    · simp [List.dropWhile, h]; omega
    · simp [List.dropWhile, h]

theorem countersAfter_append (o n : Nat) (ls : List DiffLine) (l : DiffLine) :
    countersAfter o n (ls ++ [l]) =
      stepCounters (countersAfter o n ls).1 (countersAfter o n ls).2 l.type := by
  induction ls generalizing o n with
  | nil =>
    cases h : l.type <;> simp [countersAfter, h, stepCounters]
  | cons x xs ih =>
    cases h : x.type <;> simp [countersAfter, h, ih]

theorem numberedFrom_append (o n : Nat) (ls : List DiffLine) (l : DiffLine)
    (h : numberedFrom o n ls = true)
    (hl : lineAtCounters (countersAfter o n ls).1 (countersAfter o n ls).2 l) :
    numberedFrom o n (ls ++ [l]) = true := by
  induction ls generalizing o n with
  | nil =>
    simp only [countersAfter] at hl
    cases ht : l.type <;>
      simp_all [numberedFrom, lineAtCounters, ht, countersAfter]
  | cons x xs ih =>
    cases hx : x.type <;>
      simp_all [numberedFrom, hx, countersAfter] <;>
      exact ih _ _ h hl

theorem mem_mapSet (m : List (String × FileDiff)) (k : String) (v : FileDiff)
    (p : String) (f : FileDiff) (h : (p, f) ∈ mapSet m k v) :
    (p, f) ∈ m ∨ (p = k ∧ f = v) := by
  induction m with
  | nil =>
    simp [mapSet] at h
    exact Or.inr ⟨h.1, h.2⟩
  | cons x xs ih =>
    obtain ⟨k', v'⟩ := x
    by_cases hk : k' = k
    · simp [mapSet, hk] at h
      rcases h with ⟨h1, h2⟩ | h
      · exact Or.inr ⟨h1, h2⟩
      · exact Or.inl (List.mem_cons_of_mem _ h)
    · simp [mapSet, hk] at h
      rcases h with ⟨h1, h2⟩ | h
      · exact Or.inl (by simp [h1, h2])
      · rcases ih h with h' | h'
        · exact Or.inl (List.mem_cons_of_mem _ h')
        · exact Or.inr h'

theorem stateOk_of_fields (st st' : ParseState)
    (hfiles : st'.files = st.files) (hcf : st'.currentFile = st.currentFile)
    (hch : st'.currentHunk = st.currentHunk) (ho : st'.oldLine = st.oldLine)
    (hn : st'.newLine = st.newLine) (h : StateOk st) : StateOk st' := by
  obtain ⟨h1, h2, h3⟩ := h
  refine ⟨?_, ?_, ?_⟩
  · rw [hfiles]; exact h1
  · rw [hcf]; exact h2
  · rw [hch, ho, hn]; exact h3

theorem pushCurrentHunk_eq (st : ParseState) :
    pushCurrentHunk st = st ∨
    pushCurrentHunk st = { st with pendingPushes := st.pendingPushes + 1 } := by
  unfold pushCurrentHunk
  rcases hh : st.currentHunk with _ | hk <;> rcases hf : st.currentFile with _ | f <;>
    simp [hh, hf]

theorem pushCurrentHunk_ok (st : ParseState) (h : StateOk st) :
    StateOk (pushCurrentHunk st) := by
  rcases pushCurrentHunk_eq st with heq | heq <;> rw [heq]
  · exact h
  · exact stateOk_of_fields st _ rfl rfl rfl rfl rfl h

theorem materializeHunk_ok (st : ParseState) (h : StateOk st) :
    StateOk (materializeHunk st) := by
  obtain ⟨h1, h2, h3⟩ := h
  rcases hh : st.currentHunk with _ | hk
  · have heq : materializeHunk st = st := by unfold materializeHunk; rw [hh]
    rw [heq]; exact ⟨h1, h2, h3⟩
  · rcases hf : st.currentFile with _ | f
    · have heq : materializeHunk st = st := by unfold materializeHunk; rw [hh, hf]
      rw [heq]; exact ⟨h1, h2, h3⟩
    · have heq : materializeHunk st =
        { st with
          currentFile :=
            some { f with hunks := f.hunks ++ List.replicate st.pendingPushes hk }
          pendingPushes := 0 } := by
        unfold materializeHunk; rw [hh, hf]
      rw [heq]
      refine ⟨h1, ?_, fun hk' hh' => h3 hk' hh'⟩
      intro f' hf'
      have hf'' : f' = { f with hunks := f.hunks ++ List.replicate st.pendingPushes hk } := by
        simpa using hf'.symm
      subst hf''
      intro hk' hmem
      simp only [List.mem_append] at hmem
      rcases hmem with hmem | hmem
      · exact h2 f hf hk' hmem
      · rw [List.eq_of_mem_replicate hmem]
        exact (h3 hk hh).1

theorem saveCurrentFile_ok (st : ParseState) (h : StateOk st) :
    StateOk (saveCurrentFile st) := by
  obtain ⟨h1, h2, h3⟩ := h
  rcases hf : st.currentFile with _ | f
  · have heq : saveCurrentFile st = st := by unfold saveCurrentFile; rw [hf]
    rw [heq]; exact ⟨h1, h2, h3⟩
  · by_cases he : f.hunks.isEmpty
    · have heq : saveCurrentFile st = st := by
        unfold saveCurrentFile; rw [hf]; simp [he]
      rw [heq]; exact ⟨h1, h2, h3⟩
    · have heq : saveCurrentFile st = { st with files := mapSet st.files f.newPath f } := by
        unfold saveCurrentFile; rw [hf]; simp [he]
      rw [heq]
      refine ⟨?_, h2, h3⟩
      intro p f' hmem
      rcases mem_mapSet _ _ _ _ _ hmem with hmem' | ⟨_, hf2⟩
      · exact h1 p f' hmem'
      · rw [hf2]; exact h2 f hf

theorem appendLine_counters_ok (st : ParseState) (l : DiffLine) (o' n' : Nat)
    (h : StateOk st) (hl : lineAtCounters st.oldLine st.newLine l)
    (hs : stepCounters st.oldLine st.newLine l.type = (o', n')) :
    StateOk { appendLine st l with oldLine := o', newLine := n' } := by
  obtain ⟨h1, h2, h3⟩ := h
  rcases hh : st.currentHunk with _ | hk
  · have heq : appendLine st l = st := by unfold appendLine; rw [hh]
    rw [heq]
    refine ⟨h1, h2, ?_⟩
    intro hk' hh'
    simp only at hh'
    rw [hh] at hh'
    exact absurd hh' (by simp)
  · have heq : appendLine st l =
      { st with currentHunk := some { hk with lines := hk.lines ++ [l] } } := by
      unfold appendLine; rw [hh]
    rw [heq]
    refine ⟨h1, h2, ?_⟩
    intro hk' hh'
    simp only at hh'
    have hk'' : hk' = { hk with lines := hk.lines ++ [l] } := by simpa using hh'.symm
    subst hk''
    obtain ⟨hok, hc⟩ := h3 hk hh
    constructor
    · exact numberedFrom_append _ _ _ _ hok (by rw [hc]; exact hl)
    · simp only [countersAfter_append, hc]
      exact hs

theorem flushHunkForFileHeader_ok (st : ParseState) (h : StateOk st) :
    StateOk (flushHunkForFileHeader st) := by
  rcases hh : st.currentHunk with _ | hk
  · have heq : flushHunkForFileHeader st = st := by unfold flushHunkForFileHeader; rw [hh]
    rw [heq]; exact h
  · rcases hf : st.currentFile with _ | f
    · have heq : flushHunkForFileHeader st = st := by
        unfold flushHunkForFileHeader; rw [hh, hf]
      rw [heq]; exact h
    · have heq : flushHunkForFileHeader st =
        { (materializeHunk (pushCurrentHunk st)) with currentHunk := none } := by
        unfold flushHunkForFileHeader; rw [hh, hf]
      rw [heq]
      obtain ⟨m1, m2, m3⟩ := materializeHunk_ok _ (pushCurrentHunk_ok st h)
      exact ⟨m1, m2, fun hk' hh' => absurd hh' (by simp)⟩

theorem stepFileHeader_ok (st : ParseState) (line : String) (h : StateOk st) :
    StateOk (stepFileHeader st line) := by
  unfold stepFileHeader
  have h1 := saveCurrentFile_ok _ (flushHunkForFileHeader_ok st h)
  obtain ⟨s1, s2, s3⟩ := h1
  cases matchDiffGit line with
  | none => exact ⟨s1, s2, s3⟩
  | some p =>
    obtain ⟨oldPath, newPath⟩ := p
    refine ⟨s1, ?_, s3⟩
    intro f hf
    have : f = ⟨oldPath, newPath, false, false, []⟩ := by simpa using hf.symm
    subst this
    intro hk hmem
    simp at hmem

theorem stepHunkHeader_ok (st : ParseState) (line : String) (h : StateOk st) :
    StateOk (stepHunkHeader st line) := by
  unfold stepHunkHeader
  have hp := pushCurrentHunk_ok st h
  cases matchHunkHeader line.data with
  | none => exact hp
  | some q =>
    obtain ⟨oldStart, oldCount, newStart, newCount⟩ := q
    obtain ⟨m1, m2, m3⟩ := materializeHunk_ok _ hp
    refine ⟨m1, m2, ?_⟩
    intro hk hh'
    have : hk = ⟨oldStart, oldCount, newStart, newCount, [], line⟩ := by
      simpa using hh'.symm
    subst this
    exact ⟨rfl, rfl⟩

theorem stepContent_ok (st : ParseState) (i : Nat) (line : String) (h : StateOk st) :
    StateOk (stepContent st i line) := by
  rcases hh : st.currentHunk with _ | hk
  · have heq : stepContent st i line = st := by unfold stepContent; rw [hh]
    rw [heq]; exact h
  · have heq : stepContent st i line =
      (if jsStartsWith line "+" then
        { appendLine st ⟨.added, line.drop 1, none, some st.newLine, i⟩ with
            oldLine := st.oldLine, newLine := st.newLine + 1 }
      else if jsStartsWith line "-" then
        { appendLine st ⟨.removed, line.drop 1, some st.oldLine, none, i⟩ with
            oldLine := st.oldLine + 1, newLine := st.newLine }
      else if jsStartsWith line " " then
        { appendLine st ⟨.context, line.drop 1, some st.oldLine, some st.newLine, i⟩ with
            oldLine := st.oldLine + 1, newLine := st.newLine + 1 }
      else st) := by
      unfold stepContent; rw [hh]
    rw [heq]
    split_ifs with h1 h2 h3
    · exact appendLine_counters_ok st _ _ _ h ⟨rfl, rfl⟩ rfl
    · exact appendLine_counters_ok st _ _ _ h ⟨rfl, rfl⟩ rfl
    · exact appendLine_counters_ok st _ _ _ h ⟨rfl, rfl⟩ rfl
    · exact h

theorem parseStep_ok (st : ParseState) (i : Nat) (line : String) (h : StateOk st) :
    StateOk (parseStep st i line) := by
  unfold parseStep
  obtain ⟨h1, h2, h3⟩ := h
  split_ifs with hd hn hdel hat
  · exact stepFileHeader_ok st line ⟨h1, h2, h3⟩
  · rcases hf : st.currentFile with _ | f
    · exact ⟨h1, h2, h3⟩
    · refine ⟨h1, ?_, h3⟩
      intro f' hf'
      have : f' = { f with isNewFile := true } := by simpa using hf'.symm
      subst this
      exact h2 f hf
  · rcases hf : st.currentFile with _ | f
    · exact ⟨h1, h2, h3⟩
    · refine ⟨h1, ?_, h3⟩
      intro f' hf'
      have : f' = { f with isDeletedFile := true } := by simpa using hf'.symm
      subst this
      exact h2 f hf
  · exact stepHunkHeader_ok st line ⟨h1, h2, h3⟩
  · exact stepContent_ok st i line ⟨h1, h2, h3⟩

theorem parseLoop_cons (st : ParseState) (i : Nat) (line : String)
    (rest : List String) :
    parseLoop (line :: rest) st i = parseLoop rest (parseStep st (i + 1) line) (i + 1) :=
  rfl

theorem parseLoop_ok (lines : List String) (st : ParseState) (i : Nat)
    (h : StateOk st) : StateOk (parseLoop lines st i) := by
  induction lines generalizing st i with
  | nil => exact h
  | cons line rest ih =>
    rw [parseLoop_cons]
    exact ih (parseStep st (i + 1) line) (i + 1) (parseStep_ok st (i + 1) line h)

theorem parseFinish_ok (st : ParseState) (h : StateOk st) :
    StateOk (parseFinish st) :=
  saveCurrentFile_ok _ (materializeHunk_ok _ (pushCurrentHunk_ok st h))

/-- Every file value in the result of `parseDiffPatch` is well numbered:
every hunk's lines follow the counter recurrence seeded from its header. -/
theorem mapGet_mem (m : List (String × FileDiff)) (p : String) (fd : FileDiff)
    (h : mapGet m p = some fd) : (p, fd) ∈ m := by
  induction m with
  | nil => simp [mapGet] at h
  | cons x xs ih =>
    obtain ⟨k', v'⟩ := x
    by_cases hk : k' = p
    · subst hk
      simp [mapGet] at h
      simp [h]
    · simp [mapGet, hk] at h
      exact List.mem_cons_of_mem _ (ih h)

theorem parseDiffPatch_numbered (diffContent : String) (p : String) (fd : FileDiff)
    (hget : mapGet (parseDiffPatch diffContent) p = some fd) :
    FileOk fd := by
  have hinit : StateOk ⟨[], none, none, 0, 0, 0⟩ :=
    ⟨fun q f hmem => absurd hmem (by simp), fun f hf => by simp at hf,
      fun hk hh => by simp at hh⟩
  obtain ⟨h1, -, -⟩ := parseFinish_ok _
    (parseLoop_ok (splitLines diffContent) ⟨[], none, none, 0, 0, 0⟩ 0 hinit)
  exact h1 p fd (mapGet_mem _ _ _ hget)

theorem numberedFrom_kinds (ls : List DiffLine) (o n : Nat)
    (h : numberedFrom o n ls = true) : ∀ l ∈ ls, lineKindInv l := by
  induction ls generalizing o n with
  | nil => intro l hl; simp at hl
  | cons x xs ih =>
    intro l hl
    rcases List.mem_cons.mp hl with rfl | hl'
    · cases ht : l.type with
      | added =>
        simp only [numberedFrom, ht, Bool.and_eq_true, beq_iff_eq] at h
        refine ⟨fun _ => ⟨h.1.1, n, h.1.2⟩, fun hr => ?_, fun hc => ?_⟩
        · rw [ht] at hr; simp at hr
        · rw [ht] at hc; simp at hc
      | removed =>
        simp only [numberedFrom, ht, Bool.and_eq_true, beq_iff_eq] at h
        refine ⟨fun ha => ?_, fun _ => ⟨h.1.2, o, h.1.1⟩, fun hc => ?_⟩
        · rw [ht] at ha; simp at ha
        · rw [ht] at hc; simp at hc
      | context =>
        simp only [numberedFrom, ht, Bool.and_eq_true, beq_iff_eq] at h
        refine ⟨fun ha => ?_, fun hr => ?_, fun _ => ⟨o, n, h.1.1, h.1.2⟩⟩
        · rw [ht] at ha; simp at ha
        · rw [ht] at hr; simp at hr
    · cases ht : x.type <;>
        simp only [numberedFrom, ht, Bool.and_eq_true, beq_iff_eq] at h <;>
        exact ih _ _ h.2 l hl'

/-- Position of a `Context` line in a well-numbered hunk: the line-number
difference equals the header difference shifted by the imbalance of `Added`
and `Removed` lines occurring before it. -/
theorem numberedFrom_context_delta (ls : List DiffLine) (o n : Nat)
    (h : numberedFrom o n ls = true) (i : Nat) (hi : i < ls.length)
    (hc : (ls.get ⟨i, hi⟩).type = .context) :
    ∃ a b, (ls.get ⟨i, hi⟩).old_line = some a ∧ (ls.get ⟨i, hi⟩).new_line = some b ∧
      (b : ℤ) - (a : ℤ) = (n : ℤ) - (o : ℤ) +
        ((ls.take i).countP (fun l => l.type == LineType.added) : ℤ) -
        ((ls.take i).countP (fun l => l.type == LineType.removed) : ℤ) := by
  induction ls generalizing o n i with
  | nil => simp at hi
  | cons x xs ih =>
    cases i with
    | zero =>
      simp only [List.get] at hc ⊢
      simp only [numberedFrom, hc, Bool.and_eq_true, beq_iff_eq] at h
      exact ⟨o, n, h.1.1, h.1.2, by simp⟩
    | succ j =>
      have hj : j < xs.length := by simpa using hi
      have hget : (x :: xs).get ⟨j + 1, hi⟩ = xs.get ⟨j, hj⟩ := rfl
      rw [hget] at hc ⊢
      cases ht : x.type with
      | added =>
        simp only [numberedFrom, ht, Bool.and_eq_true, beq_iff_eq] at h
        obtain ⟨a, b, ha, hb, hd⟩ := ih _ _ h.2 j hj hc
        refine ⟨a, b, ha, hb, ?_⟩
        simp only [List.take_succ_cons, List.countP_cons, ht]
        simp only [beq_iff_eq]
        push_cast
        omega
      | removed =>
        simp only [numberedFrom, ht, Bool.and_eq_true, beq_iff_eq] at h
        obtain ⟨a, b, ha, hb, hd⟩ := ih _ _ h.2 j hj hc
        refine ⟨a, b, ha, hb, ?_⟩
        simp only [List.take_succ_cons, List.countP_cons, ht]
        simp only [beq_iff_eq]
        push_cast
        omega
      | context =>
        simp only [numberedFrom, ht, Bool.and_eq_true, beq_iff_eq] at h
        obtain ⟨a, b, ha, hb, hd⟩ := ih _ _ h.2 j hj hc
        refine ⟨a, b, ha, hb, ?_⟩
        simp only [List.take_succ_cons, List.countP_cons, ht]
        simp only [beq_iff_eq]
        push_cast
        omega

theorem subOccurs_length_le (hay pat : List Char) (h : subOccurs hay pat = true) :
    pat.length ≤ hay.length := by
  induction hay with
  | nil =>
    simp [subOccurs, List.isEmpty_iff] at h
    simp [h]
  | cons c rest ih =>
    simp only [subOccurs, Bool.or_eq_true] at h
    rcases h with h | h
    · have := List.IsPrefix.length_le (List.isPrefixOf_iff_prefix.mp h)
      simpa using this
    · have := ih h
      simp
      omega

theorem subOccurs_antisymm (a b : List Char) (hab : subOccurs a b = true)
    (hba : subOccurs b a = true) : a = b := by
  have hlen : a.length = b.length :=
    Nat.le_antisymm (subOccurs_length_le b a hba) (subOccurs_length_le a b hab)
  cases a with
  | nil =>
    simp [subOccurs, List.isEmpty_iff] at hab
    simp [hab]
  | cons c rest =>
    simp only [subOccurs, Bool.or_eq_true] at hab
    rcases hab with hab | hab
    · have hp := List.isPrefixOf_iff_prefix.mp hab
      exact (List.IsPrefix.eq_of_length hp hlen.symm).symm
    · have := subOccurs_length_le rest b hab
      simp at hlen
      omega

theorem strContains_antisymm (s t : String) (hst : strContains s t = true)
    (hts : strContains t s = true) : s = t := by
  have h : s.data = t.data := subOccurs_antisymm t.data s.data hts hst |>.symm
  cases s; cases t
  simp only at h
  rw [h]

theorem specContainScore_nonneg (t lc : String) : 0 ≤ specContainScore t lc := by
  unfold specContainScore
  split_ifs <;> positivity

theorem specPositionalScore_nonneg (t lc : String) : 0 ≤ specPositionalScore t lc := by
  unfold specPositionalScore
  split_ifs <;> positivity

theorem specLineScore_nonneg (t : String) (l : DiffLine) : 0 ≤ specLineScore t l := by
  unfold specLineScore
  have := specContainScore_nonneg t (normalizeCode l.content)
  exact le_trans this (le_max_left _ _)

theorem candScore_nonneg (t : String) (l : DiffLine) : 0 ≤ candScore t l := by
  unfold candScore
  split_ifs
  · exact le_refl 0
  · exact specLineScore_nonneg t l

theorem maxCandScore_nonneg (t : String) (ls : List DiffLine) :
    0 ≤ maxCandScore t ls := by
  induction ls with
  | nil => simp [maxCandScore]
  | cons x xs ih =>
    simp only [maxCandScore, List.foldr] at ih ⊢
    exact le_trans ih (le_max_right _ _)

theorem maxCandScore_cons (t : String) (x : DiffLine) (xs : List DiffLine) :
    maxCandScore t (x :: xs) = max (candScore t x) (maxCandScore t xs) := rfl

/-- The containment methods make a single strict-improvement update with the
spec's containment score. -/
theorem containUpdate_eq (t : String) (l : DiffLine)
    (best : Option FuzzyBest) (bs : ℚ)
    (hne : ¬ normalizeCode l.content = t)
    (hbs : 0 ≤ bs) :
    containUpdate t (normalizeCode l.content) l best bs =
      if bs < specContainScore t (normalizeCode l.content) then
        (some ⟨l.old_line, l.new_line.getD 0⟩,
          specContainScore t (normalizeCode l.content))
      else (best, bs) := by
  have hanti : ¬ (strContains (normalizeCode l.content) t = true ∧
      strContains t (normalizeCode l.content) = true) := by
    rintro ⟨h1, h2⟩
    exact hne (strContains_antisymm _ _ h1 h2)
  unfold containUpdate specContainScore
  by_cases hm1 : 15 ≤ t.length ∧ strContains (normalizeCode l.content) t = true
  · have hm2 : ¬ (15 ≤ (normalizeCode l.content).length ∧
        strContains t (normalizeCode l.content) = true) := by
      rintro ⟨-, h2⟩
      exact hanti ⟨hm1.2, h2⟩
    simp only [hm1, if_true, hm2, if_false]
    simp
  · simp only [hm1, if_false]
    by_cases hm2 : 15 ≤ (normalizeCode l.content).length ∧
        strContains t (normalizeCode l.content) = true
    · simp only [hm2, if_true]
      simp
    · simp only [hm2, if_false]
      rw [if_neg (not_lt.mpr hbs)]

/-- Net effect of the three fuzzy methods on one candidate line: the running
best is replaced exactly when the line's (0.6-gated) score strictly beats it. -/
theorem methodUpdate_net (t : String) (l : DiffLine)
    (best : Option FuzzyBest) (bs : ℚ)
    (hne : ¬ normalizeCode l.content = t)
    (hbs : 0 ≤ bs) :
    methodUpdate t (normalizeCode l.content) l best bs =
      if bs < specLineScore t l then
        (some ⟨l.old_line, l.new_line.getD 0⟩, specLineScore t l)
      else (best, bs) := by
  have hA := specContainScore_nonneg t (normalizeCode l.content)
  unfold methodUpdate
  rw [containUpdate_eq t l best bs hne hbs]
  simp only [specLineScore]
  set a : ℚ := specContainScore t (normalizeCode l.content) with ha
  by_cases hm3 : 20 ≤ t.length ∧ 20 ≤ (normalizeCode l.content).length
  · have hpval : specPositionalScore t (normalizeCode l.content) =
        (countMatchingChars t.data (normalizeCode l.content).data : ℚ) /
          (max t.length (normalizeCode l.content).length : ℚ) := by
      unfold specPositionalScore
      rw [if_pos hm3]
    simp only [hm3, if_true, ← hpval]
    set p : ℚ := specPositionalScore t (normalizeCode l.content) with hpdef
    by_cases hg : (3 : ℚ)/5 < p
    · rw [if_pos hg]
      by_cases h1 : bs < a
      · rw [if_pos h1]
        dsimp only
        by_cases h2 : a < p
        · rw [max_eq_right (le_of_lt h2), if_pos (lt_trans h1 h2)]
          simp [hg, h2]
        · rw [max_eq_left (le_of_not_lt h2), if_pos h1]
          simp [hg, h2]
      · rw [if_neg h1]
        dsimp only
        by_cases h2 : bs < p
        · rw [max_eq_right (le_of_lt (lt_of_le_of_lt (le_of_not_lt h1) h2)),
            if_pos h2]
          simp [hg, h2]
        · rw [if_neg (not_lt.mpr (sup_le (le_of_not_lt h1) (le_of_not_lt h2)))]
          simp [hg, h2]
    · rw [if_neg hg, max_eq_left hA]
      have hC : ∀ q : Prop, ¬ ((3:ℚ)/5 < p ∧ q) := fun q hh => hg hh.1
      rw [if_neg (hC _)]
      simp
  · have hp0 : specPositionalScore t (normalizeCode l.content) = 0 := by
      unfold specPositionalScore
      rw [if_neg hm3]
    simp only [hm3, if_false, hp0]
    have h35 : ¬ ((3 : ℚ)/5 < (0 : ℚ)) := by norm_num
    rw [if_neg h35, max_eq_left hA]

theorem scanLines_nil (t : String) (best : Option FuzzyBest) (bs : ℚ) :
    scanLines t [] best bs = finishScan best bs := rfl

/-- A line whose normalized content is shorter than 3 characters can never
score: every method needs at least 15 characters on both sides. -/
theorem specLineScore_of_short (t : String) (l : DiffLine)
    (h : (normalizeCode l.content).length < 3) : specLineScore t l = 0 := by
  unfold specLineScore specContainScore specPositionalScore
  have hc1 : ¬ (15 ≤ t.length ∧ strContains (normalizeCode l.content) t = true) := by
    rintro ⟨ht, hs⟩
    have := subOccurs_length_le _ _ hs
    have ht' : t.data.length = t.length := rfl
    have hl' : (normalizeCode l.content).data.length = (normalizeCode l.content).length := rfl
    omega
  have hc2 : ¬ (15 ≤ (normalizeCode l.content).length ∧
      strContains t (normalizeCode l.content) = true) := by
    rintro ⟨hl, -⟩
    omega
  have hc3 : ¬ (20 ≤ t.length ∧ 20 ≤ (normalizeCode l.content).length) := by
    rintro ⟨-, hl⟩
    omega
  rw [if_neg hc1, if_neg hc2, if_neg hc3]
  norm_num

theorem candScore_of_not_removed (t : String) (l : DiffLine)
    (h : ¬ l.type = .removed) : candScore t l = specLineScore t l := by
  unfold candScore
  rw [if_neg h]

/-- A strictly positive maximal candidate score is attained by some
non-removed line, so the arg-max search succeeds. -/
theorem maxCandScore_attained (t : String) (ls : List DiffLine)
    (h : 0 < maxCandScore t ls) :
    ∃ x ∈ ls, (!(x.type == LineType.removed) &&
      decide (candScore t x = maxCandScore t ls)) = true := by
  induction ls with
  | nil => simp [maxCandScore] at h
  | cons x xs ih =>
    rw [maxCandScore_cons] at h ⊢
    rcases le_total (candScore t x) (maxCandScore t xs) with hle | hle
    · rw [max_eq_right hle] at h ⊢
      obtain ⟨y, hy, hp⟩ := ih h
      exact ⟨y, List.mem_cons_of_mem x hy, hp⟩
    · rw [max_eq_left hle] at h ⊢
      refine ⟨x, List.mem_cons_self x xs, ?_⟩
      have hnr : ¬ x.type = .removed := by
        intro hx
        rw [candScore, if_pos hx] at h
        exact absurd h (lt_irrefl 0)
      simp [hnr]

theorem find?_max_eq_some (t : String) (ls : List DiffLine)
    (h : 0 < maxCandScore t ls) :
    ∃ w, ls.find? (fun x => !(x.type == LineType.removed) &&
      decide (candScore t x = maxCandScore t ls)) = some w := by
  obtain ⟨x, hx, hp⟩ := maxCandScore_attained t ls h
  have hsome : (ls.find? (fun x => !(x.type == LineType.removed) &&
      decide (candScore t x = maxCandScore t ls))).isSome := by
    rw [List.find?_isSome]
    exact ⟨x, hx, hp⟩
  exact Option.isSome_iff_exists.mp hsome

/-- The fuzzy-candidate scan, characterised: with no exact match in sight, the
result is the spec's arg-max rule — the first candidate attaining the maximal
(0.6-gated) score wins when that score strictly beats the accumulator. -/
theorem scanLines_characterize (t : String) (hlen : 5 ≤ t.length) :
    ∀ (lines : List DiffLine) (best : Option FuzzyBest) (bs : ℚ), 0 ≤ bs →
    firstExactMatch t lines = none →
    scanLines t lines best bs =
      if bs < maxCandScore t lines then
        (match lines.find? (fun l => !(l.type == LineType.removed) &&
            decide (candScore t l = maxCandScore t lines)) with
        | some l => finishScan (some ⟨l.old_line, l.new_line.getD 0⟩)
            (maxCandScore t lines)
        | none => finishScan best bs)
      else finishScan best bs := by
  intro lines
  induction lines with
  | nil =>
    intro best bs hbs hnone
    simp only [maxCandScore, List.foldr]
    rw [if_neg (not_lt.mpr hbs)]
    exact scanLines_nil t best bs
  | cons l ls ih =>
    intro best bs hbs hnone
    rw [firstExactMatch] at hnone
    have hall := List.find?_eq_none.mp hnone
    have hpred : ¬ ((fun x => !(x.type == LineType.removed) &&
        (normalizeCode x.content == t)) l = true) :=
      hall l (List.mem_cons_self l ls)
    have hnone' : firstExactMatch t ls = none :=
      List.find?_eq_none.mpr (fun a ha => hall a (List.mem_cons_of_mem l ha))
    have hM := maxCandScore_cons t l ls
    have hMrest := maxCandScore_nonneg t ls
    -- the head line cannot be an exact match
    by_cases hrem : l.type = .removed
    · -- removed: scan skips; candScore is 0
      have hscan : scanLines t (l :: ls) best bs = scanLines t ls best bs := by
        rw [scanLines, if_pos hrem]
      have hc0 : candScore t l = 0 := by unfold candScore; rw [if_pos hrem]
      have hMeq : maxCandScore t (l :: ls) = maxCandScore t ls := by
        rw [hM, hc0, max_eq_right hMrest]
      rw [hscan, ih best bs hbs hnone', hMeq]
      by_cases hlt : bs < maxCandScore t ls
      · rw [if_pos hlt, if_pos hlt]
        have hfind : (l :: ls).find? (fun x => !(x.type == LineType.removed) &&
            decide (candScore t x = maxCandScore t ls)) =
            ls.find? (fun x => !(x.type == LineType.removed) &&
            decide (candScore t x = maxCandScore t ls)) := by
          apply List.find?_cons_of_neg
          simp [hrem]
        rw [hfind]
      · rw [if_neg hlt, if_neg hlt]
    · have hne : ¬ normalizeCode l.content = t := by
        intro heq
        apply hpred
        simp [hrem, heq]
      by_cases hshort : (normalizeCode l.content).length < 3
      · -- too short: scan skips; the score is 0 anyway
        have hscan : scanLines t (l :: ls) best bs = scanLines t ls best bs := by
          rw [scanLines, if_neg hrem]
          simp only [hshort, if_true]
        have hc0 : candScore t l = 0 := by
          rw [candScore_of_not_removed t l hrem, specLineScore_of_short t l hshort]
        have hMeq : maxCandScore t (l :: ls) = maxCandScore t ls := by
          rw [hM, hc0, max_eq_right hMrest]
        rw [hscan, ih best bs hbs hnone', hMeq]
        by_cases hlt : bs < maxCandScore t ls
        · rw [if_pos hlt, if_pos hlt]
          have hfind : (l :: ls).find? (fun x => !(x.type == LineType.removed) &&
              decide (candScore t x = maxCandScore t ls)) =
              ls.find? (fun x => !(x.type == LineType.removed) &&
              decide (candScore t x = maxCandScore t ls)) := by
            apply List.find?_cons_of_neg
            have : ¬ candScore t l = maxCandScore t ls := by
              rw [hc0]
              intro h0
              rw [← h0] at hlt
              exact absurd hlt (not_lt.mpr hbs)
            simp [this]
          rw [hfind]
        · rw [if_neg hlt, if_neg hlt]
      · -- real candidate: net update, then induction
        have hscan : scanLines t (l :: ls) best bs =
            scanLines t ls (methodUpdate t (normalizeCode l.content) l best bs).1
              (methodUpdate t (normalizeCode l.content) l best bs).2 := by
          rw [scanLines, if_neg hrem]
          dsimp only
          rw [if_neg hshort, if_neg hne]
        rw [hscan, methodUpdate_net t l best bs hne hbs]
        have hcand : candScore t l = specLineScore t l :=
          candScore_of_not_removed t l hrem
        by_cases hup : bs < specLineScore t l
        · -- head improves the accumulator
          simp only [hup, if_true]
          rw [ih _ _ (le_trans hbs (le_of_lt hup)) hnone']
          by_cases hrest : specLineScore t l < maxCandScore t ls
          · rw [if_pos hrest]
            have hMeq : maxCandScore t (l :: ls) = maxCandScore t ls := by
              rw [hM, hcand, max_eq_right (le_of_lt hrest)]
            have hlt2 : bs < maxCandScore t (l :: ls) := by
              rw [hMeq]; exact lt_trans hup hrest
            rw [if_pos hlt2, hMeq]
            have hfind : (l :: ls).find? (fun x => !(x.type == LineType.removed) &&
                decide (candScore t x = maxCandScore t ls)) =
                ls.find? (fun x => !(x.type == LineType.removed) &&
                decide (candScore t x = maxCandScore t ls)) := by
              apply List.find?_cons_of_neg
              have : ¬ candScore t l = maxCandScore t ls := by
                rw [hcand]
                exact ne_of_lt hrest
              simp [this]
            rw [hfind]
            have hpos : 0 < maxCandScore t ls :=
              lt_of_le_of_lt hbs (lt_trans hup hrest)
            obtain ⟨w, hw⟩ := find?_max_eq_some t ls hpos
            rw [hw]
          · rw [if_neg hrest]
            have hMeq : maxCandScore t (l :: ls) = specLineScore t l := by
              rw [hM, hcand, max_eq_left (le_of_not_lt hrest)]
            have hlt2 : bs < maxCandScore t (l :: ls) := by rw [hMeq]; exact hup
            rw [if_pos hlt2]
            have hfind : (l :: ls).find? (fun x => !(x.type == LineType.removed) &&
                decide (candScore t x = maxCandScore t (l :: ls))) = some l := by
              apply List.find?_cons_of_pos
              simp [hrem, hcand, hMeq]
            rw [hfind, hMeq]
        · -- head does not improve
          simp only [hup, if_false]
          rw [ih best bs hbs hnone']
          have hscore_le : specLineScore t l ≤ bs := le_of_not_lt hup
          by_cases hlt : bs < maxCandScore t ls
          · have hMeq : maxCandScore t (l :: ls) = maxCandScore t ls := by
              rw [hM, hcand]
              exact max_eq_right (le_trans hscore_le (le_of_lt hlt))
            rw [if_pos hlt, hMeq, if_pos hlt]
            have hfind : (l :: ls).find? (fun x => !(x.type == LineType.removed) &&
                decide (candScore t x = maxCandScore t ls)) =
                ls.find? (fun x => !(x.type == LineType.removed) &&
                decide (candScore t x = maxCandScore t ls)) := by
              apply List.find?_cons_of_neg
              have : ¬ candScore t l = maxCandScore t ls := by
                rw [hcand]
                intro h0
                rw [h0] at hscore_le
                exact absurd hlt (not_lt.mpr hscore_le)
              simp [this]
            rw [hfind]
          · have hMle : ¬ bs < maxCandScore t (l :: ls) := by
              rw [hM, hcand]
              rw [not_lt, sup_le_iff]
              exact ⟨hscore_le, le_of_not_lt hlt⟩
            rw [if_neg hlt, if_neg hMle]

/-- If a (non-removed) line matches exactly, the scan stops on the first such
line and reports `exact` with that line's numbers, for any accumulator. -/
theorem scanLines_exact (t : String) (hlen : 5 ≤ t.length) :
    ∀ (lines : List DiffLine) (best : Option FuzzyBest) (bs : ℚ) (l : DiffLine),
    firstExactMatch t lines = some l →
    scanLines t lines best bs = ⟨l.old_line, l.new_line.getD 0, .exact⟩ := by
  intro lines
  induction lines with
  | nil =>
    intro best bs l hfind
    rw [firstExactMatch] at hfind
    simp at hfind
  | cons x xs ih =>
    intro best bs l hfind
    rw [firstExactMatch] at hfind
    rw [List.find?_cons_eq_some] at hfind
    rcases hfind with ⟨hp, rfl⟩ | ⟨hnp, hfind'⟩
    · simp only [Bool.and_eq_true, Bool.not_eq_true', beq_eq_false_iff_ne,
        beq_iff_eq] at hp
      obtain ⟨hrem, heq⟩ := hp
      rw [scanLines, if_neg hrem]
      dsimp only
      rw [if_neg (by rw [heq]; omega), if_pos heq]
    · have hfind'' : firstExactMatch t xs = some l := hfind'
      by_cases hrem : x.type = .removed
      · rw [scanLines, if_pos hrem]
        exact ih best bs l hfind''
      · have hne : ¬ normalizeCode x.content = t := by
          intro heq
          simp [hrem, heq] at hnp
        rw [scanLines, if_neg hrem]
        dsimp only
        by_cases hshort : (normalizeCode x.content).length < 3
        · rw [if_pos hshort]
          exact ih best bs l hfind''
        · rw [if_neg hshort, if_neg hne]
          exact ih _ _ l hfind''

theorem normalizeCode_of_trim_empty (code : String)
    (h : String.mk (trimChars code.data) = "") : normalizeCode code = "" := by
  have hnil : trimChars code.data = [] := by
    have := congrArg String.data h
    simpa using this
  unfold normalizeCode
  rw [hnil]
  have h1 : collapseWs [] = [] := rfl
  rw [h1]
  have h2 : rmPunctSpaces ([] : List Char).length [] = [] := rfl
  rw [h2]

theorem isSimilarLoop_iff (line : Int) (body : String) (tol : Int)
    (cs : List ExistingDiscussionComment)
    (hpos : ∀ c ∈ cs, c.line ≠ some 0) :
    isSimilarLoop line body tol cs = true ↔
      ∃ c ∈ cs, ∃ n : Int, c.line = some n ∧ |n - line| ≤ tol ∧
        (3 : ℚ)/5 < calculateSimilarity body c.body := by
  induction cs with
  | nil => simp [isSimilarLoop]
  | cons c rest ih =>
    have hpos' : ∀ x ∈ rest, x.line ≠ some 0 :=
      fun x hx => hpos x (List.mem_cons_of_mem c hx)
    have ihr := ih hpos'
    rcases hl : c.line with _ | n
    · simp only [isSimilarLoop, hl]
      rw [ihr]
      constructor
      · rintro ⟨x, hx, hrest⟩
        exact ⟨x, List.mem_cons_of_mem c hx, hrest⟩
      · rintro ⟨x, hx, n, hn, hrest⟩
        rcases List.mem_cons.mp hx with rfl | hx'
        · rw [hl] at hn; exact absurd hn (by simp)
        · exact ⟨x, hx', n, hn, hrest⟩
    · have hn0 : ¬ n = 0 := by
        intro h0
        exact hpos c (List.mem_cons_self c rest) (by rw [hl, h0])
      simp only [isSimilarLoop, hl]
      rw [if_neg hn0]
      by_cases hfar : tol < |n - line|
      · rw [if_pos hfar, ihr]
        constructor
        · rintro ⟨x, hx, hrest⟩
          exact ⟨x, List.mem_cons_of_mem c hx, hrest⟩
        · rintro ⟨x, hx, m, hm, hnear, hsim⟩
          rcases List.mem_cons.mp hx with rfl | hx'
          · rw [hl] at hm
            injection hm with hm
            subst hm
            exact absurd hnear (not_le.mpr hfar)
          · exact ⟨x, hx', m, hm, hnear, hsim⟩
      · rw [if_neg hfar]
        by_cases hsim : (3 : ℚ)/5 < calculateSimilarity body c.body
        · rw [if_pos hsim]
          simp only [true_iff]
          exact ⟨c, List.mem_cons_self c rest, n, hl, not_lt.mp hfar, hsim⟩
        · rw [if_neg hsim, ihr]
          constructor
          · rintro ⟨x, hx, hrest⟩
            exact ⟨x, List.mem_cons_of_mem c hx, hrest⟩
          · rintro ⟨x, hx, m, hm, hnear, hsim'⟩
            rcases List.mem_cons.mp hx with rfl | hx'
            · rw [hl] at hm
              injection hm with hm
              subst hm
              exact absurd hsim' hsim
            · exact ⟨x, hx', m, hm, hnear, hsim'⟩

theorem isSimilarCommentExists_iff (file : String) (line : Int) (body : String)
    (existing : List ExistingDiscussionComment)
    (hpos : ∀ c ∈ existing, c.line ≠ some 0) :
    isSimilarCommentExists file line body existing 3 = true ↔
      ∃ c ∈ existing, c.file = some file ∧ ∃ n : Int, c.line = some n ∧
        |n - line| ≤ 3 ∧ (3 : ℚ)/5 < calculateSimilarity body c.body := by
  unfold isSimilarCommentExists
  have hmem : ∀ x, x ∈ existing.filter (fun c => c.file == some file) ↔
      x ∈ existing ∧ x.file = some file := by
    intro x
    rw [List.mem_filter]
    simp
  by_cases he : (existing.filter (fun c => c.file == some file)).isEmpty
  · simp only [he, if_true]
    constructor
    · intro h; exact absurd h (by simp)
    · rintro ⟨c, hc, hfile, hrest⟩
      have : c ∈ existing.filter (fun x => x.file == some file) :=
        (hmem c).mpr ⟨hc, hfile⟩
      rw [List.isEmpty_iff] at he
      rw [he] at this
      simp at this
  · rw [if_neg he]
    have hpos' : ∀ c ∈ existing.filter (fun x => x.file == some file),
        c.line ≠ some 0 :=
      fun c hc => hpos c ((hmem c).mp hc).1
    rw [isSimilarLoop_iff line body 3 _ hpos']
    constructor
    · rintro ⟨c, hc, hrest⟩
      obtain ⟨hmem', hfile⟩ := (hmem c).mp hc
      exact ⟨c, hmem', hfile, hrest⟩
    · rintro ⟨c, hc, hfile, hrest⟩
      exact ⟨c, (hmem c).mpr ⟨hc, hfile⟩, hrest⟩

theorem isSimilarLoop_of_mem (line : Int) (body : String) (tol : Int)
    (cs : List ExistingDiscussionComment) (c : ExistingDiscussionComment) (n : Int)
    (hc : c ∈ cs) (hn : c.line = some n) (hn0 : n ≠ 0) (hnear : |n - line| ≤ tol)
    (hsim : (3 : ℚ)/5 < calculateSimilarity body c.body) :
    isSimilarLoop line body tol cs = true := by
  induction cs with
  | nil => simp at hc
  | cons x rest ih =>
    rcases List.mem_cons.mp hc with rfl | hc'
    · simp only [isSimilarLoop, hn]
      rw [if_neg hn0, if_neg (not_lt.mpr hnear), if_pos hsim]
    · have htail := ih hc'
      rcases hl : x.line with _ | m
      · simp only [isSimilarLoop, hl]
        exact htail
      · simp only [isSimilarLoop, hl]
        by_cases hm0 : m = 0
        · rw [if_pos hm0]; exact htail
        · rw [if_neg hm0]
          by_cases hfar : tol < |m - line|
          · rw [if_pos hfar]; exact htail
          · rw [if_neg hfar]
            by_cases hs : (3 : ℚ)/5 < calculateSimilarity body x.body
            · rw [if_pos hs]
            · rw [if_neg hs]; exact htail

theorem isSimilarCommentExists_of_mem (file : String) (line : Int) (body : String)
    (existing : List ExistingDiscussionComment) (tol : Int)
    (c : ExistingDiscussionComment) (n : Int)
    (hc : c ∈ existing) (hfile : c.file = some file) (hn : c.line = some n)
    (hn0 : n ≠ 0) (hnear : |n - line| ≤ tol)
    (hsim : (3 : ℚ)/5 < calculateSimilarity body c.body) :
    isSimilarCommentExists file line body existing tol = true := by
  unfold isSimilarCommentExists
  have hcf : c ∈ existing.filter (fun x => x.file == some file) := by
    rw [List.mem_filter]
    exact ⟨hc, by simp [hfile]⟩
  have hne : ¬ (existing.filter (fun x => x.file == some file)).isEmpty = true := by
    rw [List.isEmpty_iff]
    intro hemp
    rw [hemp] at hcf
    simp at hcf
  rw [if_neg hne]
  exact isSimilarLoop_of_mem line body tol _ c n hcf hn hn0 hnear hsim

theorem calculateSimilarity_both_empty (t1 t2 : String)
    (h1 : similarityWords t1 = []) (h2 : similarityWords t2 = []) :
    calculateSimilarity t1 t2 = 1 := by
  unfold calculateSimilarity
  rw [h1, h2]
  simp

theorem calculateSimilarity_empty_left (t1 t2 : String)
    (h1 : similarityWords t1 = []) (h2 : similarityWords t2 ≠ []) :
    calculateSimilarity t1 t2 = 0 := by
  unfold calculateSimilarity
  rw [h1]
  have hlen : (similarityWords t2).length ≠ 0 := by
    intro h
    exact h2 (List.length_eq_zero.mp h)
  have hd : ([] : List String).length = 0 ∨ (similarityWords t2).length = 0 :=
    Or.inl rfl
  rw [if_neg (by simp [hlen]), if_pos hd]

theorem calculateSimilarity_empty_right (t1 t2 : String)
    (h1 : similarityWords t1 ≠ []) (h2 : similarityWords t2 = []) :
    calculateSimilarity t1 t2 = 0 := by
  unfold calculateSimilarity
  rw [h2]
  have hlen : (similarityWords t1).length ≠ 0 := by
    intro h
    exact h1 (List.length_eq_zero.mp h)
  have hd : (similarityWords t1).length = 0 ∨ ([] : List String).length = 0 :=
    Or.inr rfl
  rw [if_neg (by simp [hlen]), if_pos hd]

/-- C1, amended.  The rejection filters (a normalized snippet shorter than 5
characters, or one of the `genericPatterns` boilerplate strings) do return
`Unresolved` (fallback) immediately — but with `new_line` set to
`aiProvidedNewLine || 0`, i.e. the caller-supplied hint is echoed back in
every such outcome, not withheld.  The claim's second half ("the returned
new_line is not the hint value") is refuted by `claim_C1_counterexample`. -/
theorem claim_C1 (filePath codeContent : String) (hint : Option Nat)
    (fileDiffs : List (String × FileDiff))
    (h : (normalizeCode codeContent).length < 5 ∨
      normalizeCode codeContent ∈ genericPatterns) :
    findCorrectLineNumbers filePath codeContent hint fileDiffs =
      ⟨none, hint.getD 0, Confidence.fallback⟩ := by
  unfold findCorrectLineNumbers
  rcases hm : mapGet fileDiffs filePath with _ | fd
  · rfl
  · dsimp only
    by_cases htrim : String.mk (trimChars codeContent.data) = ""
    · rw [if_pos htrim]
    · rw [if_neg htrim]
      by_cases hlen : (normalizeCode codeContent).length < 5
      · rw [if_pos hlen]
      · rw [if_neg hlen]
        have hmem : normalizeCode codeContent ∈ genericPatterns := by
          rcases h with h | h
          · exact absurd h hlen
          · exact h
        rw [if_pos hmem]

/-- C1 counterexample: the snippet `"x"` is shorter than 5 normalized
characters, so the resolver answers `Unresolved` — and its `new_line` is
exactly the untrusted hint `42`, contradicting "in every Unresolved outcome
the returned new_line is not the hint value". -/
theorem claim_C1_counterexample :
    (normalizeCode "x").length < 5 ∧
    findCorrectLineNumbers "h.ts" "x" (some 42) [("h.ts", fdC1)] =
      ⟨none, 42, Confidence.fallback⟩ :=
  ⟨by decide, rfl⟩

/-- C1 witness: the boilerplate snippet `"return;"` with hint `7` rejects to
fallback carrying `new_line = 7`. -/
theorem claim_C1_witness :
    ((normalizeCode "return;").length < 5 ∨
      normalizeCode "return;" ∈ genericPatterns) ∧
    findCorrectLineNumbers "m.ts" "return;" (some 7) [] =
      ⟨none, 7, Confidence.fallback⟩ :=
  ⟨Or.inr (by decide), claim_C1 "m.ts" "return;" (some 7) [] (Or.inr (by decide))⟩

/-- C2, amended.  For a snippet that survives the rejection filters, if the
normalized snippet equals the normalized content of a non-`Removed` diff line
of that file (the first such line in hunk-then-line scan order), the resolver
returns immediately with `Exact` and that line's `new_line`/`old_line`;
`firstExactMatch` only selects non-`Removed` lines, so a `Removed` line is
never the exact-match target.  Unamended, the claim is false: a snippet that
IS an exact match but is also boilerplate is rejected before the scan
(`claim_C2_counterexample`). -/
theorem claim_C2 (filePath codeContent : String) (hint : Option Nat)
    (fileDiffs : List (String × FileDiff)) (fd : FileDiff) (l : DiffLine)
    (hfd : mapGet fileDiffs filePath = some fd)
    (hlen : 5 ≤ (normalizeCode codeContent).length)
    (hnb : normalizeCode codeContent ∉ genericPatterns)
    (hfind : firstExactMatch (normalizeCode codeContent) (allLines fd) = some l) :
    findCorrectLineNumbers filePath codeContent hint fileDiffs =
      ⟨l.old_line, l.new_line.getD 0, Confidence.exact⟩ := by
  unfold findCorrectLineNumbers
  rw [hfd]
  dsimp only
  have htrim : ¬ String.mk (trimChars codeContent.data) = "" := by
    intro he
    have hz := normalizeCode_of_trim_empty codeContent he
    rw [hz] at hlen
    simp at hlen
  rw [if_neg htrim, if_neg (not_lt.mpr hlen), if_neg hnb]
  exact scanLines_exact _ hlen _ none 0 l hfind

/-- C2 counterexample: the snippet `"return;"` equals the normalized content
of a non-`Removed` context line of the file, yet the resolver does not
return `Exact` — the boilerplate rejection fires first and the result is
fallback (carrying the hint).  This refutes the unconditional "for every
target file and snippet". -/
theorem claim_C2_counterexample :
    firstExactMatch (normalizeCode "return;") (allLines fdC2) =
      some ⟨.context, "return;", some 1, some 1, 2⟩ ∧
    findCorrectLineNumbers "f.ts" "return;" (some 42) [("f.ts", fdC2)] =
      ⟨none, 42, Confidence.fallback⟩ :=
  ⟨rfl, rfl⟩

/-- C2 witness: resolving the added line's own text gives `Exact` with its
`new_line` and a null `old_line`. -/
theorem claim_C2_witness :
    mapGet [("w.ts", fdC2w)] "w.ts" = some fdC2w ∧
    5 ≤ (normalizeCode "const value = compute(42);").length ∧
    normalizeCode "const value = compute(42);" ∉ genericPatterns ∧
    firstExactMatch (normalizeCode "const value = compute(42);") (allLines fdC2w) =
      some ⟨.added, "const value = compute(42);", none, some 1, 2⟩ ∧
    findCorrectLineNumbers "w.ts" "const value = compute(42);" none [("w.ts", fdC2w)] =
      ⟨none, 1, Confidence.exact⟩ :=
  ⟨rfl, by decide, by decide, rfl,
   claim_C2 "w.ts" "const value = compute(42);" none [("w.ts", fdC2w)] fdC2w
     ⟨.added, "const value = compute(42);", none, some 1, 2⟩ rfl (by decide) (by decide) rfl⟩

/-- C4, amended.  With no exact match in the file, the resolver equals the
spec-side arg-max rule `specFuzzyResolve` — first candidate attaining the
maximal score, accepted as `Fuzzy` iff the score exceeds 0.4 — but over the
GATED per-line score `specLineScore`, in which the positional-overlap ratio
only participates when it additionally exceeds 0.6 (the code's
`similarity > 0.6` gate on method 3).  Against the claim's ungated formula
(`claimLineScore`) the statement is false: see `claim_C4_counterexample`. -/
theorem claim_C4 (filePath codeContent : String) (hint : Option Nat)
    (fileDiffs : List (String × FileDiff)) (fd : FileDiff)
    (hfd : mapGet fileDiffs filePath = some fd)
    (hlen : 5 ≤ (normalizeCode codeContent).length)
    (hnb : normalizeCode codeContent ∉ genericPatterns)
    (hnoex : firstExactMatch (normalizeCode codeContent) (allLines fd) = none) :
    findCorrectLineNumbers filePath codeContent hint fileDiffs =
      specFuzzyResolve (normalizeCode codeContent) (allLines fd) := by
  unfold findCorrectLineNumbers
  rw [hfd]
  dsimp only
  have htrim : ¬ String.mk (trimChars codeContent.data) = "" := by
    intro he
    have hz := normalizeCode_of_trim_empty codeContent he
    rw [hz] at hlen
    simp at hlen
  rw [if_neg htrim, if_neg (not_lt.mpr hlen), if_neg hnb]
  rw [scanLines_characterize _ hlen (allLines fd) none 0 le_rfl hnoex]
  have hspec : specFuzzyResolve (normalizeCode codeContent) (allLines fd) =
      if (2 : ℚ)/5 < maxCandScore (normalizeCode codeContent) (allLines fd) then
        (match (allLines fd).find? (fun l => !(l.type == LineType.removed) &&
            decide (candScore (normalizeCode codeContent) l =
              maxCandScore (normalizeCode codeContent) (allLines fd))) with
        | some l => ⟨l.old_line, l.new_line.getD 0, Confidence.fuzzy⟩
        | none => ⟨none, 0, Confidence.fallback⟩)
      else ⟨none, 0, Confidence.fallback⟩ := rfl
  rw [hspec]
  by_cases h0 : 0 < maxCandScore (normalizeCode codeContent) (allLines fd)
  · obtain ⟨w, hw⟩ := find?_max_eq_some (normalizeCode codeContent) (allLines fd) h0
    rw [if_pos h0, hw]
    by_cases h25 : (2 : ℚ)/5 < maxCandScore (normalizeCode codeContent) (allLines fd)
    · rw [if_pos h25]
      simp [finishScan, h25]
    · rw [if_neg h25]
      simp [finishScan, h25]
  · rw [if_neg h0]
    have hM0 : maxCandScore (normalizeCode codeContent) (allLines fd) = 0 :=
      le_antisymm (not_lt.mp h0) (maxCandScore_nonneg _ _)
    have h25 : ¬ (2 : ℚ)/5 < maxCandScore (normalizeCode codeContent) (allLines fd) := by
      rw [hM0]; norm_num
    rw [if_neg h25]
    rfl

/-- C4 counterexample: by the claim's ungated formula the candidate scores
10/21 > 0.4 and must be returned as `Fuzzy`; the code's 0.6 gate on the
positional-overlap method discards it and the resolver answers fallback. -/
theorem claim_C4_counterexample :
    firstExactMatch (normalizeCode "aaaaaaaaaabbbbbbbbbb") (allLines fdC4) = none ∧
    (2 : ℚ)/5 < claimLineScore (normalizeCode "aaaaaaaaaabbbbbbbbbb") lC4 ∧
    findCorrectLineNumbers "c.ts" "aaaaaaaaaabbbbbbbbbb" (some 9) [("c.ts", fdC4)] =
      ⟨none, 0, Confidence.fallback⟩ := by
  have hpos : specPositionalScore (normalizeCode "aaaaaaaaaabbbbbbbbbb")
      (normalizeCode lC4.content) = (10 : ℚ)/21 := by
    unfold specPositionalScore
    rw [if_pos (by decide)]
    rw [show countMatchingChars (normalizeCode "aaaaaaaaaabbbbbbbbbb").data
      (normalizeCode lC4.content).data = 10 from rfl]
    rw [show (normalizeCode "aaaaaaaaaabbbbbbbbbb").length = 20 from rfl,
      show (normalizeCode lC4.content).length = 21 from rfl]
    norm_num
  have hcontain : specContainScore (normalizeCode "aaaaaaaaaabbbbbbbbbb")
      (normalizeCode lC4.content) = 0 := by
    unfold specContainScore
    rw [if_neg (by decide), if_neg (by decide)]
  refine ⟨rfl, ?_, ?_⟩
  · unfold claimLineScore
    rw [hpos, hcontain]
    norm_num
  · have hcand : candScore (normalizeCode "aaaaaaaaaabbbbbbbbbb") lC4 = 0 := by
      rw [candScore_of_not_removed _ _ (by decide)]
      unfold specLineScore
      rw [hpos, hcontain]
      rw [if_neg (by norm_num : ¬ (3 : ℚ)/5 < (10 : ℚ)/21)]
      norm_num
    have hM : maxCandScore (normalizeCode "aaaaaaaaaabbbbbbbbbb") (allLines fdC4) = 0 := by
      rw [show allLines fdC4 = [lC4] from rfl, maxCandScore_cons, hcand]
      norm_num [maxCandScore]
    unfold findCorrectLineNumbers
    rw [show mapGet [("c.ts", fdC4)] "c.ts" = some fdC4 from rfl]
    dsimp only
    rw [if_neg (by decide : ¬ String.mk (trimChars ("aaaaaaaaaabbbbbbbbbb" : String).data) = ""),
      if_neg (by decide :
        ¬ (normalizeCode "aaaaaaaaaabbbbbbbbbb").length < 5),
      if_neg (by decide :
        ¬ normalizeCode "aaaaaaaaaabbbbbbbbbb" ∈ genericPatterns)]
    rw [scanLines_characterize (normalizeCode "aaaaaaaaaabbbbbbbbbb") (by decide)
      (allLines fdC4) none 0 le_rfl rfl]
    rw [hM]
    rw [if_neg (by norm_num : ¬ (0 : ℚ) < 0)]
    rfl

/-- C4 witness: a 16-character snippet contained in a 22-character line
resolves identically to the spec-side arg-max rule. -/
theorem claim_C4_witness :
    mapGet [("d.ts", fdC4w)] "d.ts" = some fdC4w ∧
    5 ≤ (normalizeCode "abcdefghijklmnop").length ∧
    normalizeCode "abcdefghijklmnop" ∉ genericPatterns ∧
    firstExactMatch (normalizeCode "abcdefghijklmnop") (allLines fdC4w) = none ∧
    findCorrectLineNumbers "d.ts" "abcdefghijklmnop" none [("d.ts", fdC4w)] =
      specFuzzyResolve (normalizeCode "abcdefghijklmnop") (allLines fdC4w) :=
  ⟨rfl, by decide, by decide, rfl,
   claim_C4 "d.ts" "abcdefghijklmnop" none [("d.ts", fdC4w)] fdC4w rfl
     (by decide) (by decide) rfl⟩

/-! ## Claim theorems: the diff patch parser (C3, C6, C7) -/

/-- C3: every `DiffLine` produced by `parseDiffPatch`, for any input text,
satisfies the kind/`Option` invariant (`Added ⇒ old_line = None ∧ new_line =
Some`; `Removed ⇒ new_line = None ∧ old_line = Some`; `Context ⇒ both Some`),
and every hunk's line numbers are exactly those obtained by seeding the
counters from the hunk header's `old_start`/`new_start` and stepping them per
line kind (`numberedFrom`). -/
theorem claim_C3 (diffContent p : String) (fd : FileDiff)
    (hget : mapGet (parseDiffPatch diffContent) p = some fd) :
    ∀ h ∈ fd.hunks, numberedFrom h.oldStart h.newStart h.lines = true ∧
      ∀ l ∈ h.lines, lineKindInv l := by
  intro h hh
  have hok := parseDiffPatch_numbered diffContent p fd hget h hh
  exact ⟨hok, numberedFrom_kinds _ _ _ hok⟩

/-- C3 witness: the concrete three-line hunk parses to `c3Fd` and its lines
carry the invariant. -/
theorem claim_C3_witness :
    mapGet (parseDiffPatch c3Str) "f.ts" = some c3Fd ∧
    ∀ h ∈ c3Fd.hunks, numberedFrom h.oldStart h.newStart h.lines = true ∧
      ∀ l ∈ h.lines, lineKindInv l :=
  ⟨rfl, claim_C3 c3Str "f.ts" c3Fd rfl⟩

/-- The element at the split point of `pre ++ l :: post`. -/
theorem get_append_cons (pre post : List DiffLine) (l : DiffLine) :
    ∀ hi : pre.length < (pre ++ l :: post).length,
      (pre ++ l :: post).get ⟨pre.length, hi⟩ = l := by
  induction pre with
  | nil => intro hi; rfl
  | cons x xs ih => intro hi; exact ih (by simpa using hi)

/-- C6, amended.  For a context line of a parser-produced hunk, sitting after
the prefix `pre` of its hunk's lines, the difference `new_line - old_line` is
NOT the constant `new_start - old_start`: it is that header difference
shifted by the number of `Added` lines minus the number of `Removed` lines
occurring before it in the hunk.  The constant-delta claim (see
`claim_C6_counterexample`) holds only for contexts preceding the first
added/removed line. -/
theorem claim_C6 (diffContent p : String) (fd : FileDiff) (h : DiffHunk)
    (pre post : List DiffLine) (l : DiffLine)
    (hget : mapGet (parseDiffPatch diffContent) p = some fd)
    (hh : h ∈ fd.hunks) (hsplit : h.lines = pre ++ l :: post)
    (hc : l.type = .context) :
    ∃ a b, l.old_line = some a ∧ l.new_line = some b ∧
      (b : ℤ) - (a : ℤ) = (h.newStart : ℤ) - (h.oldStart : ℤ) +
        (pre.countP (fun x => x.type == LineType.added) : ℤ) -
        (pre.countP (fun x => x.type == LineType.removed) : ℤ) := by
  have hok := parseDiffPatch_numbered diffContent p fd hget h hh
  have hok2 : numberedFrom h.oldStart h.newStart (pre ++ l :: post) = true := by
    rw [← hsplit]; exact hok
  have hi : pre.length < (pre ++ l :: post).length := by
    simp
  have hl : (pre ++ l :: post).get ⟨pre.length, hi⟩ = l := get_append_cons pre post l hi
  have hc2 : ((pre ++ l :: post).get ⟨pre.length, hi⟩).type = .context := by rw [hl, hc]
  obtain ⟨a, b, ha, hb, hd⟩ := numberedFrom_context_delta _ _ _ hok2 pre.length hi hc2
  rw [hl] at ha hb
  refine ⟨a, b, ha, hb, ?_⟩
  rw [hd, List.take_left]

/-- C6 counterexample: in the parser-produced hunk `@@ -5,1 +5,2 @@` whose
context line follows an added line, that context line has
`new_line - old_line = 6 - 5 = 1` while `new_start - old_start = 0` — the
delta is not the constant `new_start - old_start` across the hunk. -/
theorem claim_C6_counterexample :
    mapGet (parseDiffPatch c6Str) "g.ts" = some c6Fd ∧
    c6Hunk ∈ c6Fd.hunks ∧ c6Line ∈ c6Hunk.lines ∧ c6Line.type = .context ∧
    c6Line.old_line = some 5 ∧ c6Line.new_line = some 6 ∧
    ¬ ((6 : ℤ) - (5 : ℤ) = (c6Hunk.newStart : ℤ) - (c6Hunk.oldStart : ℤ)) :=
  ⟨rfl, by decide, by decide, rfl, rfl, rfl, by decide⟩

/-- C6 witness: the amended delta formula instantiated on the fixture — one
added line before the context line shifts the delta by one. -/
theorem claim_C6_witness :
    mapGet (parseDiffPatch c6Str) "g.ts" = some c6Fd ∧
    c6Hunk ∈ c6Fd.hunks ∧
    c6Hunk.lines = [⟨.added, "extra line one", none, some 5, 3⟩] ++ c6Line :: [] ∧
    c6Line.type = .context ∧
    (∃ a b, c6Line.old_line = some a ∧ c6Line.new_line = some b ∧
      (b : ℤ) - (a : ℤ) = (c6Hunk.newStart : ℤ) - (c6Hunk.oldStart : ℤ) +
        (([⟨.added, "extra line one", none, some 5, 3⟩] :
            List DiffLine).countP (fun x => x.type == LineType.added) : ℤ) -
        (([⟨.added, "extra line one", none, some 5, 3⟩] :
            List DiffLine).countP (fun x => x.type == LineType.removed) : ℤ)) :=
  ⟨rfl, by decide, rfl, rfl,
   claim_C6 c6Str "g.ts" c6Fd c6Hunk [⟨.added, "extra line one", none, some 5, 3⟩] [] c6Line
     rfl (by decide) rfl rfl⟩

/-- C7: resolving the sole added line of the `@@ -1699,7 +1699,7 @@` hunk
returns `new_line = 1702` with confidence `Exact`; resolving
`console.log(\"start\");` as the sole addition after one context line of
`@@ -10,3 +10,4 @@` returns `new_line = 11`, `old_line = None`, `Exact`. -/
theorem claim_C7 :
    findCorrectLineNumbers "app.ts" "context.getImm(), null);" none (parseDiffPatch c7StrA) =
      ⟨none, 1702, Confidence.exact⟩ ∧
    findCorrectLineNumbers "b.ts" "console.log(\"start\");" none (parseDiffPatch c7StrB) =
      ⟨none, 11, Confidence.exact⟩ :=
  ⟨rfl, rfl⟩

/-! ## Claim theorems: the duplicate suppressor (C5, C10) -/

/-- C5: with window 3 and threshold 0.6, the duplicate check returns true
if and only if some existing comment on the same file, within three lines,
has Jaccard similarity (over the word sets produced by lowercasing,
punctuation replacement, whitespace splitting and the length > 3 filter)
strictly above 0.6 with the candidate body; comments on another
file or outside the window are never compared.  Comments whose stored line
is the number 0 are JavaScript-falsy and skipped by the loop, hence the
benign domain hypothesis excluding them. -/
theorem claim_C5 (file : String) (line : Int) (body : String)
    (existing : List ExistingDiscussionComment)
    (hpos : ∀ c ∈ existing, c.line ≠ some 0) :
    isSimilarCommentExists file line body existing 3 = true ↔
      ∃ c ∈ existing, c.file = some file ∧ ∃ n : Int, c.line = some n ∧
        |n - line| ≤ 3 ∧ (3 : ℚ)/5 < calculateSimilarity body c.body :=
  isSimilarCommentExists_iff file line body existing hpos

/-- C5 witness: a nearby same-file comment whose body (like the candidate's)
normalizes to an empty word set, giving similarity 1 > 0.6, is reported as a
duplicate. -/
theorem claim_C5_witness :
    (∀ c ∈ [c5Comment], c.line ≠ some 0) ∧
    isSimilarCommentExists "src/a.ts" 10 "do it" [c5Comment] 3 = true :=
  ⟨by decide,
   (claim_C5 "src/a.ts" 10 "do it" [c5Comment] (by decide)).mpr
     ⟨c5Comment, by simp, rfl, 12, rfl, by decide,
      by rw [show calculateSimilarity "do it" c5Comment.body = 1 from rfl]; norm_num⟩⟩

/-- C10: when both comment bodies normalize to empty word sets (no word
longer than three characters survives), `calculateSimilarity` is defined to
be 1, so a same-file existing comment within the 3-line window whose body
holds only short words makes any new all-short-words issue a duplicate; when
exactly one of the two word sets is empty, the similarity is 0. -/
theorem claim_C10 (file : String) (line : Int) (body : String)
    (existing : List ExistingDiscussionComment) (c : ExistingDiscussionComment) (n : Int)
    (hmem : c ∈ existing) (hfile : c.file = some file) (hline : c.line = some n)
    (hn0 : n ≠ 0) (hnear : |n - line| ≤ 3)
    (hb : similarityWords body = []) (hcb : similarityWords c.body = []) :
    calculateSimilarity body c.body = 1 ∧
    isSimilarCommentExists file line body existing 3 = true ∧
    (∀ t1 t2 : String, similarityWords t1 = [] → similarityWords t2 ≠ [] →
      calculateSimilarity t1 t2 = 0 ∧ calculateSimilarity t2 t1 = 0) := by
  have h1 := calculateSimilarity_both_empty body c.body hb hcb
  refine ⟨h1, ?_, ?_⟩
  · refine isSimilarCommentExists_of_mem file line body existing 3 c n hmem hfile hline
      hn0 hnear ?_
    rw [h1]
    norm_num
  · intro t1 t2 ht1 ht2
    exact ⟨calculateSimilarity_empty_left t1 t2 ht1 ht2,
           calculateSimilarity_empty_right t2 t1 ht2 ht1⟩

/-- C10 witness: `"use the api"` and `"ok to go"` both normalize to empty
word sets; the similarity guard makes them duplicates of each other. -/
theorem claim_C10_witness :
    c10Comment ∈ [c10Comment] ∧ c10Comment.file = some "lib/b.ts" ∧
    c10Comment.line = some 5 ∧ (5 : Int) ≠ 0 ∧ |(5 : Int) - 4| ≤ 3 ∧
    similarityWords "use the api" = [] ∧ similarityWords c10Comment.body = [] ∧
    (calculateSimilarity "use the api" c10Comment.body = 1 ∧
     isSimilarCommentExists "lib/b.ts" 4 "use the api" [c10Comment] 3 = true ∧
     (∀ t1 t2 : String, similarityWords t1 = [] → similarityWords t2 ≠ [] →
       calculateSimilarity t1 t2 = 0 ∧ calculateSimilarity t2 t1 = 0)) :=
  ⟨by simp, rfl, rfl, by decide, by decide, rfl, rfl,
   claim_C10 "lib/b.ts" 4 "use the api" [c10Comment] c10Comment 5
     (by simp) rfl rfl (by decide) (by decide) rfl rfl⟩

/-! ## Claim theorems: repair and orchestration (C8, C9) -/

/-- C8, amended.  The repair chain itself never throws (it is a total
function here), but when the cleaned output fails to parse even after
truncation repair and the quote fix — `jsonPathAttempt` errors — the
pipeline does NOT produce an empty issue list: it falls through to markdown
parsing, whose result always lacks the required `issues` key, and the
process exits with code 1.  The claim's "if no complete element can be found
at all, the result is an empty issue list, never an exception" is refuted by
`claim_C8_counterexample`. -/
theorem claim_C8 (stdout : String) (existing : Option (List ExistingDiscussionComment))
    (changes : List GitLabChange)
    (h : jsonPathAttempt stdout = Except.error ()) :
    processCursorAgentOutput stdout existing changes = Except.error 1 := by
  unfold processCursorAgentOutput reviewPipelineCore
  rw [h]
  have hval : validateReview (parseMarkdownReview stdout) = Except.error 1 := rfl
  dsimp only
  rw [hval]

/-- C8 witness: an agent answer with no structured data at all exits with
code 1 through the markdown fallback. -/
theorem claim_C8_witness :
    jsonPathAttempt "The diff looks fine to me." = Except.error () ∧
    processCursorAgentOutput "The diff looks fine to me." none [] = Except.error 1 :=
  ⟨rfl, claim_C8 "The diff looks fine to me." none [] rfl⟩

/-- C8 counterexample: on the unparseable output `"garbage"` no complete
issues-array element exists, yet the result is `process.exit(1)` — not an
empty issue list; and the three-phase `parseAIResponse` throws on the same
input instead of repairing. -/
theorem claim_C8_counterexample :
    processCursorAgentOutput "garbage" none [] = Except.error 1 ∧
    ¬ processCursorAgentOutput "garbage" none [] = Except.ok [] ∧
    parseAIResponse "garbage" = Except.error () := by
  refine ⟨rfl, ?_, rfl⟩
  have h : processCursorAgentOutput "garbage" none [] = Except.error 1 := rfl
  rw [h]
  simp

/-- C9, amended.  The availability of the loaded existing-discussions data
never decides success: for every agent output, the pipeline errors with the
discussions present exactly when it errors with them absent (`none` merely
skips the Step-3 duplicate filter).  The claim's stronger assertions — that
a failing duplicate-cross-check collaborator triggers a fallback and that no
failure mode is fatal — are refuted by `claim_C9_counterexample`: a throwing
discussions fetch or a failed agent spawn reaches `process.exit(1)`. -/
theorem claim_C9 (stdout : String) (changes : List GitLabChange)
    (d : List ExistingDiscussionComment) (n : Nat) :
    processCursorAgentOutput stdout (some d) changes = Except.error n ↔
      processCursorAgentOutput stdout none changes = Except.error n := by
  unfold processCursorAgentOutput
  cases hc : reviewPipelineCore stdout with
  | error m => simp [hc]
  | ok rd =>
    cases hi : issuesOf rd with
    | error m => simp [hc, hi]
    | ok issues => simp [hc, hi]

/-- C9 counterexample: the three-phase review throws and the orchestrator
falls back to `runCursorAgentReview`; there, a throwing existing-discussions
fetch (the duplicate-cross-check collaborator being unavailable) is caught
by the outer catch and the pipeline dies with exit code 1 — and so does a
failed or timed-out agent spawn.  Both failure modes are fatal. -/
theorem claim_C9_counterexample :
    mainReviewStep (Except.error ()) true (Except.error ()) (some []) (Except.ok "ready")
      = Except.error 1 ∧
    mainReviewStep (Except.error ()) true (Except.ok none) (some []) (Except.error ())
      = Except.error 1 :=
  ⟨rfl, rfl⟩

end MRReviewer
